import Mathlib

/-!
# kms-jwks-manager: rotation and export over a modelled key store

A shallow embedding of `main.go`, `rotate.go` and `export.go`.  The commands
are translated statement by statement; the key-management service they talk
to is an explicit state (`Store`) driven through a small state-and-trace
monad (`KMS`).  Go's `(value, err)` returns become `Except` values that the
translated code inspects exactly where the source inspects `err`.

Modelling choices:
* key ids are natural numbers, times are integers (nanoseconds), durations
  saturate at the ends of the int64 range as `time.Time.Sub` does;
* every store call is synchronous and single-attempt; the provider may fail
  any call (`Env.faults`), and a failed call changes nothing;
* execution is sequential: no other process touches the store during a run;
* the trace of calls is ghost state: no command reads it.
-/

namespace KmsJwks

/-! ## main.go -/

/-- Source constant `keySuffixNext`. -/
def keySuffixNext : String := "-next"

/-- Source constant `keySuffixCurrent`. -/
def keySuffixCurrent : String := "-current"

/-- Source constant `keySuffixPrevious`. -/
def keySuffixPrevious : String := "-previous"

/-- Source type `Context`; the `kms` client field is the threaded `Env`. -/
structure Context where
  KeyAliasPrefix : String

/-- Source method `Context.keyAlias`: `fmt.Sprintf("alias/%s%s", prefix, suffix)`. -/
def Context.keyAlias (c : Context) (suffix : String) : String :=
  "alias/" ++ c.KeyAliasPrefix ++ suffix

/-! ## The key store consumed by both commands -/

/-- Error kinds the service reports.  The commands only ever distinguish
`NotFoundException` from everything else. -/
inductive KmsError
  | NotFoundException
  | AlreadyExistsException
  | KMSInvalidStateException
  | ServiceFailure
deriving DecidableEq

/-- The part of `KeyMetadata` the commands read: key id and creation date
(nanoseconds on the wall clock). -/
structure KeyMetadata where
  KeyId : Nat
  CreationDate : Int
deriving DecidableEq

/-- Modelled from the spec: the durable state of the external key-management
service (section 3 and 6, "keys, aliases, creation timestamps, deletion
schedules").  An alias is a mutable pointer from a name to a key id. -/
structure Store where
  keys : List KeyMetadata
  aliases : List (String × Nat)
  scheduled : List Nat
deriving DecidableEq

/-- What a run can observe and consume: the store, the outcome the provider
will give to each upcoming call (`true` = that call fails with a provider
error and has no effect), and the wall clock. -/
structure Env where
  store : Store
  faults : List Bool
  now : Int

/-- The store calls made by the two commands. -/
inductive Request
  | DescribeKey (keyId : String)
  | CreateKey (keySpec : String)
  | CreateAlias (aliasName : String) (targetKeyId : Nat)
  | UpdateAlias (aliasName : String) (targetKeyId : Nat)
  | DeleteAlias (aliasName : String)
  | ScheduleKeyDeletion (keyId : Nat)
  | GetPublicKey (keyId : String)
deriving DecidableEq

/-- Library steps of the export loop body. -/
inductive LibCall
  | ParsePKIXPublicKey
  | PublicKeyOf
  | SetKeyID
  | SetKeyUsage
  | SetAlgorithm
  | AddKey
deriving DecidableEq

/-- One entry of the ghost trace: a store call with the store as it was when
the call was made and the error it returned (if any), or a library step of
the export loop for the given alias and whether it succeeded. -/
inductive Event
  | kms (req : Request) (pre : Store) (err : Option KmsError)
  | lib (step : LibCall) (keyAlias : String) (ok : Bool)
deriving DecidableEq

/-- Result of running a computation: its value, the environment afterwards,
and the calls it made, oldest first. -/
structure Ret (α : Type) where
  val : α
  env : Env
  trace : List Event

/-- Computations against the store: state passing plus a trace of calls. -/
def KMS (α : Type) : Type := Env → Ret α

/-- Run a computation from an environment. -/
def KMS.run {α : Type} (m : KMS α) (e : Env) : Ret α := m e

/-- A computation that makes no call. -/
def KMS.ret {α : Type} (a : α) : KMS α := fun e => ⟨a, e, []⟩

/-- Sequencing: the second computation starts where the first ended. -/
def KMS.andThen {α β : Type} (m : KMS α) (k : α → KMS β) : KMS β := fun e =>
  let r1 := m e
  let r2 := k r1.val r1.env
  ⟨r2.val, r2.env, r1.trace ++ r2.trace⟩

instance : Monad KMS where
  pure := KMS.ret
  bind := KMS.andThen

/-- The key id an alias points at, if the alias exists. -/
def Store.target (s : Store) (a : String) : Option Nat :=
  s.aliases.lookup a

/-- The key an alias resolves to, if the alias exists and its target does. -/
def Store.resolve (s : Store) (a : String) : Option KeyMetadata :=
  match s.target a with
  | none => none
  | some id => s.keys.find? (fun k => k.KeyId == id)

/-- The id the service gives to the next key it creates: one not carried by
any key it holds. -/
def Store.freshId (s : Store) : Nat :=
  (s.keys.map (fun k => k.KeyId)).foldr max 0 + 1

/-- The store with one more key. -/
def Store.addKey (s : Store) (k : KeyMetadata) : Store :=
  { s with keys := s.keys ++ [k] }

/-- The store with a new alias entry. -/
def Store.createAlias (s : Store) (a : String) (id : Nat) : Store :=
  { s with aliases := s.aliases ++ [(a, id)] }

/-- The store with alias `a` repointed at `id`. -/
def Store.updateAlias (s : Store) (a : String) (id : Nat) : Store :=
  { s with aliases := s.aliases.map fun p => if p.1 = a then (a, id) else p }

/-- The store without alias `a`. -/
def Store.deleteAlias (s : Store) (a : String) : Store :=
  { s with aliases := s.aliases.filter fun p => p.1 ≠ a }

/-- The store with key `id` pending deletion. -/
def Store.schedule (s : Store) (id : Nat) : Store :=
  { s with scheduled := s.scheduled ++ [id] }

/-- The environment after one call has consumed its provider outcome. -/
def Env.tick (e : Env) : Env :=
  { e with faults := e.faults.tail }

/-- Whether the provider fails the next call. -/
def Env.faulty (e : Env) : Bool :=
  e.faults.head? = some true

/-- One synchronous, single-attempt store call.  When the provider fails the
call it returns `ServiceFailure` and changes nothing; otherwise `f` decides
the response and the new store. -/
def call {α : Type} (req : Request) (f : Env → Except KmsError (α × Store)) :
    KMS (Except KmsError α) := fun e =>
  if e.faulty then
    ⟨.error .ServiceFailure, e.tick, [.kms req e.store (some .ServiceFailure)]⟩
  else
    match f e with
    | .error err => ⟨.error err, e.tick, [.kms req e.store (some err)]⟩
    | .ok (a, s) => ⟨.ok a, { e.tick with store := s }, [.kms req e.store none]⟩

/-- Modelled from the spec: `describeByAlias(alias) -> ManagedKey | NotFound |
ProviderError` (section 4.2). -/
def DescribeKey (keyId : String) : KMS (Except KmsError KeyMetadata) :=
  call (.DescribeKey keyId) fun e =>
    match e.store.resolve keyId with
    | some m => .ok (m, e.store)
    | none => .error .NotFoundException

/-- Modelled from the spec: `createSigningKey(spec, tags) -> ManagedKey`
(section 4.2); the new key gets a fresh id and the current time as its
creation date. -/
def CreateKey (keySpec : String) : KMS (Except KmsError KeyMetadata) :=
  call (.CreateKey keySpec) fun e =>
    let k : KeyMetadata := ⟨e.store.freshId, e.now⟩
    .ok (k, e.store.addKey k)

/-- Modelled from the spec: `createAlias(alias, keyId)` (section 4.2); the
service refuses a name that is already taken. -/
def CreateAlias (aliasName : String) (targetKeyId : Nat) : KMS (Except KmsError Unit) :=
  call (.CreateAlias aliasName targetKeyId) fun e =>
    match e.store.target aliasName with
    | some _ => .error .AlreadyExistsException
    | none => .ok ((), e.store.createAlias aliasName targetKeyId)

/-- Modelled from the spec: `updateAlias(alias, keyId) -> NotFound if alias
absent | ProviderError` (section 4.2). -/
def UpdateAlias (aliasName : String) (targetKeyId : Nat) : KMS (Except KmsError Unit) :=
  call (.UpdateAlias aliasName targetKeyId) fun e =>
    match e.store.target aliasName with
    | none => .error .NotFoundException
    | some _ => .ok ((), e.store.updateAlias aliasName targetKeyId)

/-- Modelled from the spec: `deleteAlias(alias)` (section 4.2). -/
def DeleteAlias (aliasName : String) : KMS (Except KmsError Unit) :=
  call (.DeleteAlias aliasName) fun e =>
    match e.store.target aliasName with
    | none => .error .NotFoundException
    | some _ => .ok ((), e.store.deleteAlias aliasName)

/-- Modelled from the spec: `scheduleDeletion(keyId)` (section 4.2); deletion
is deferred, so the key stays in `keys` and its id joins `scheduled`.  The
service refuses an unknown key and one already pending deletion. -/
def ScheduleKeyDeletion (keyId : Nat) : KMS (Except KmsError Unit) :=
  call (.ScheduleKeyDeletion keyId) fun e =>
    if e.store.keys.all (fun k => k.KeyId != keyId) then .error .NotFoundException
    else if keyId ∈ e.store.scheduled then .error .KMSInvalidStateException
    else .ok ((), e.store.schedule keyId)

/-- Modelled from the spec: `getPublicKey(keyId) -> publicKeyBytes |
ProviderError` (section 4.2).  The DER bytes of a key are a function
`material` of its id, held by the service. -/
def GetPublicKey (material : Nat → List Nat) (keyId : String) :
    KMS (Except KmsError (List Nat)) :=
  call (.GetPublicKey keyId) fun e =>
    match e.store.resolve keyId with
    | some m => .ok (material m.KeyId, e.store)
    | none => .error .NotFoundException

/-! ## rotate.go -/

/-- Source type `CmdRotate`; `MinimumAge` is a `time.Duration` in nanoseconds. -/
structure CmdRotate where
  MinimumAge : Int
  Force : Bool
  KeySpec : String

/-- The context strings of the `fmt.Errorf` calls in `rotate.go`. -/
inductive Msg
  /-- message "getting current key: %w" -/
  | gettingCurrentKey
  /-- message "getting previous key: %w" -/
  | gettingPreviousKey
  /-- message "updating alias for previous key: %w" -/
  | updatingAliasForPreviousKey
  /-- message "getting next key: %w" -/
  | gettingNextKey
  /-- message "updating alias for current key: %w" -/
  | updatingAliasForCurrentKey
  /-- message "deleting next alias: %w" -/
  | deletingNextAlias
  /-- message "creating new key: %w" -/
  | creatingNewKey
  /-- message "scheduling deletion of previous key: %w" -/
  | schedulingDeletionOfPreviousKey
  /-- message "creating key: %w" -/
  | creatingKey
  /-- message "creating alias for %s: %w" -/
  | creatingAliasFor (keyId : Nat)
  /-- message "creating %s alias: %w" -/
  | creatingAlias (keySuffix : String)
  /-- message "updating %s alias: %w" -/
  | updatingAlias (keySuffix : String)
deriving DecidableEq

/-- Go `error` values produced by `rotate.go`. -/
inductive Err
  /-- an error returned by a store call -/
  | kms (e : KmsError)
  /-- a wrapped error, `fmt.Errorf("...: %w", inner)` -/
  | wrap (msg : Msg) (inner : Err)
  /-- message "current key %s is too young to rotate" -/
  | tooYoung (keyId : Nat)
deriving DecidableEq

/-- Largest `time.Duration` (int64 nanoseconds). -/
def maxDuration : Int := 2 ^ 63 - 1

/-- Smallest `time.Duration`. -/
def minDuration : Int := -(2 ^ 63)

/-- Go `time.Since(t)` read at wall-clock time `now`: `now.Sub(t)`, which
saturates at the ends of the `Duration` range. -/
def timeSince (now t : Int) : Int :=
  let d := now - t
  if d < minDuration then minDuration
  else if d > maxDuration then maxDuration
  else d

/-- Go's `err != nil && !errors.As(err, &notFound)`: the error of a store
call unless there is none or it is a `NotFoundException`. -/
def fatal? {α : Type} : Except KmsError α → Option KmsError
  | .ok _ => none
  | .error .NotFoundException => none
  | .error err => some err

/-- Read the wall clock. -/
def timeNow : KMS Int := fun e => ⟨e.now, e, []⟩

/-- Source method `CmdRotate.getOrCreateKMSKey`. -/
def CmdRotate.getOrCreateKMSKey (r : CmdRotate) (ktx : Context) (keySuffix : String) :
    KMS (Except Err KeyMetadata) := do
  let keyAlias := ktx.keyAlias keySuffix
  match ← DescribeKey keyAlias with
  | .ok dk => pure (.ok dk)
  | .error .NotFoundException =>
    match ← CreateKey r.KeySpec with
    | .error err => pure (.error (.wrap .creatingKey (.kms err)))
    | .ok k =>
      match ← CreateAlias keyAlias k.KeyId with
      | .error err => pure (.error (.wrap (.creatingAliasFor k.KeyId) (.kms err)))
      | .ok _ =>
        match ← DescribeKey keyAlias with
        | .ok dk => pure (.ok dk)
        | .error err => pure (.error (.kms err))
  | .error err => pure (.error (.kms err))

/-- Source function `updateOrCreateAlias`; returns Go's `error` (`none` = nil). -/
def updateOrCreateAlias (ktx : Context) (keySuffix : String) (keyID : Nat) :
    KMS (Option Err) := do
  match ← UpdateAlias (ktx.keyAlias keySuffix) keyID with
  | .error .NotFoundException =>
    match ← CreateAlias (ktx.keyAlias keySuffix) keyID with
    | .error err => pure (some (.wrap (.creatingAlias keySuffix) (.kms err)))
    | .ok _ => pure none
  | .error err => pure (some (.wrap (.updatingAlias keySuffix) (.kms err)))
  | .ok _ => pure none

/-- Source method `CmdRotate.Run`; returns Go's `error` (`none` = nil). -/
def CmdRotate.Run (r : CmdRotate) (ktx : Context) : KMS (Option Err) := do
  match ← r.getOrCreateKMSKey ktx keySuffixCurrent with
  | .error err => pure (some (.wrap .gettingCurrentKey err))
  | .ok keyCurrent =>
  if decide (timeSince (← timeNow) keyCurrent.CreationDate < r.MinimumAge) && !r.Force then
    pure (some (.tooYoung keyCurrent.KeyId))
  else
  let described ← DescribeKey (ktx.keyAlias keySuffixPrevious)
  -- `keyPrevious` is nil exactly when the call returned an error
  let keyPrevious : Option KeyMetadata := described.toOption
  match fatal? described with
  | some err => pure (some (.wrap .gettingPreviousKey (.kms err)))
  | none =>
  match ← updateOrCreateAlias ktx keySuffixPrevious keyCurrent.KeyId with
  | some err => pure (some (.wrap .updatingAliasForPreviousKey err))
  | none =>
  match ← r.getOrCreateKMSKey ktx keySuffixNext with
  | .error err => pure (some (.wrap .gettingNextKey err))
  | .ok keyNext =>
  match ← updateOrCreateAlias ktx keySuffixCurrent keyNext.KeyId with
  | some err => pure (some (.wrap .updatingAliasForCurrentKey err))
  | none =>
  match ← DeleteAlias (ktx.keyAlias keySuffixNext) with
  | .error err => pure (some (.wrap .deletingNextAlias (.kms err)))
  | .ok _ =>
  match ← r.getOrCreateKMSKey ktx keySuffixNext with
  | .error err => pure (some (.wrap .creatingNewKey err))
  | .ok _ =>
  match keyPrevious with
  | some kp =>
    -- schedule deletion last to ensure we don't lose the key on error
    match ← ScheduleKeyDeletion kp.KeyId with
    | .error err => pure (some (.wrap .schedulingDeletionOfPreviousKey (.kms err)))
    | .ok _ => pure none
  | none => pure none

/-! ## export.go -/

/-- Source type `CmdExport`. -/
structure CmdExport where
  Algorithm : String

/-- Kinds of key `x509.ParsePKIXPublicKey` can return. -/
inductive KeyType
  | RSA
  | DSA
  | ECDSA
  | Ed25519
  | ECDH
deriving DecidableEq

/-- A decoded public key: its kind and its parameters. -/
structure PublicKey where
  kind : KeyType
  params : List Nat
deriving DecidableEq

/-- A `jwk.Key`: the public key it was built from and the metadata fields
the exporter sets (`kid`, `use`, `alg`). -/
structure Jwk where
  pub : PublicKey
  kid : Option Nat
  use : Option String
  alg : Option String
deriving DecidableEq

/-- Source constant `jwk.ForSignature`. -/
def ForSignature : String := "sig"

/-- Source function `jwa.KeyAlgorithmFrom`: the key algorithm named by the
string; its name is the string itself, also when the library does not know
the algorithm. -/
def KeyAlgorithmFrom (name : String) : String := name

/-- The libraries the exporter calls, outside this repository: the decoder
`x509.ParsePKIXPublicKey`, and for `jwk.PublicKeyOf`, `key.Set`,
`set.AddKey` and the JSON encoder the inputs on which they return an error
(`some msg`). -/
structure Lib where
  ParsePKIXPublicKey : List Nat → Except String PublicKey
  publicKeyOfErr : PublicKey → Option String
  setErr : LibCall → Jwk → Option String
  addKeyErr : List Jwk → Jwk → Option String
  encodeErr : List Jwk → Option String

/-- Go `error` values produced by `export.go`, each with the alias in its
message. -/
inductive ExportErr
  /-- message "describing key %s: %w" -/
  | describingKey (keyID : String) (e : KmsError)
  /-- message "getting public key for %s: %w" -/
  | gettingPublicKey (keyID : String) (e : KmsError)
  /-- message "decoding public key for %s: %w" -/
  | decodingPublicKey (keyID : String) (e : String)
  /-- message "converting public key for %s: %w" -/
  | convertingPublicKey (keyID : String) (e : String)
  /-- message "setting key ID for %s: %w" -/
  | settingKeyID (keyID : String) (e : String)
  /-- message "setting key usage for %s: %w" (the source uses this text for the
  algorithm field too) -/
  | settingKeyUsage (keyID : String) (e : String)
  /-- message "adding key %s: %w" -/
  | addingKey (keyID : String) (e : String)
  /-- message "encoding JWKS: %w" -/
  | encodingJWKS (e : String)
deriving DecidableEq

/-- A library step: its result, recorded in the trace. -/
def libStep {α : Type} (step : LibCall) (keyAlias : String) (res : Except String α) :
    KMS (Except String α) := fun e =>
  ⟨res, e, [.lib step keyAlias res.toBool]⟩

/-- Source call `jwk.PublicKeyOf`: a key with no metadata yet. -/
def PublicKeyOf (lib : Lib) (pk : PublicKey) : Except String Jwk :=
  match lib.publicKeyOfErr pk with
  | some msg => .error msg
  | none => .ok ⟨pk, none, none, none⟩

/-- Source call `key.Set(jwk.KeyIDKey, id)`. -/
def Jwk.SetKeyID (lib : Lib) (key : Jwk) (id : Nat) : Except String Jwk :=
  match lib.setErr .SetKeyID key with
  | some msg => .error msg
  | none => .ok { key with kid := some id }

/-- Source call `key.Set(jwk.KeyUsageKey, usage)`. -/
def Jwk.SetKeyUsage (lib : Lib) (key : Jwk) (usage : String) : Except String Jwk :=
  match lib.setErr .SetKeyUsage key with
  | some msg => .error msg
  | none => .ok { key with use := some usage }

/-- Source call `key.Set(jwk.AlgorithmKey, alg)`. -/
def Jwk.SetAlgorithm (lib : Lib) (key : Jwk) (alg : String) : Except String Jwk :=
  match lib.setErr .SetAlgorithm key with
  | some msg => .error msg
  | none => .ok { key with alg := some alg }

/-- Source call `s.AddKey(key)`: the key goes to the end of the set. -/
def AddKey (lib : Lib) (s : List Jwk) (key : Jwk) : Except String (List Jwk) :=
  match lib.addKeyErr s key with
  | some msg => .error msg
  | none => .ok (s ++ [key])

/-- The `for` loop of `CmdExport.Run` over the remaining suffixes, with the
set built so far; an error is the early `return`. -/
def CmdExport.loop (x : CmdExport) (lib : Lib) (material : Nat → List Nat) (ktx : Context) :
    List String → List Jwk → KMS (Except ExportErr (List Jwk))
  | [], s => pure (.ok s)
  | keySuffix :: rest, s => do
    let keyID := ktx.keyAlias keySuffix
    match ← DescribeKey keyID with
    | .error err => pure (.error (.describingKey keyID err))
    | .ok kmsKeyDescription =>
    match ← GetPublicKey material keyID with
    | .error err => pure (.error (.gettingPublicKey keyID err))
    | .ok awsPubKey =>
    match ← libStep .ParsePKIXPublicKey keyID (lib.ParsePKIXPublicKey awsPubKey) with
    | .error err => pure (.error (.decodingPublicKey keyID err))
    | .ok pk =>
    match ← libStep .PublicKeyOf keyID (PublicKeyOf lib pk) with
    | .error err => pure (.error (.convertingPublicKey keyID err))
    | .ok key =>
    match ← libStep .SetKeyID keyID (key.SetKeyID lib kmsKeyDescription.KeyId) with
    | .error err => pure (.error (.settingKeyID keyID err))
    | .ok key =>
    match ← libStep .SetKeyUsage keyID (key.SetKeyUsage lib ForSignature) with
    | .error err => pure (.error (.settingKeyUsage keyID err))
    | .ok key =>
    match ← libStep .SetAlgorithm keyID
        (key.SetAlgorithm lib (KeyAlgorithmFrom x.Algorithm)) with
    | .error err => pure (.error (.settingKeyUsage keyID err))
    | .ok key =>
    match ← libStep .AddKey keyID (AddKey lib s key) with
    | .error err => pure (.error (.addingKey keyID err))
    | .ok s => CmdExport.loop x lib material ktx rest s

/-- What `CmdExport.Run` leaves behind: Go's `error` (`none` = nil) and the
key-set document written to standard output, if one was. -/
structure Exported where
  err : Option ExportErr
  stdout : Option (List Jwk)

/-- Source method `CmdExport.Run`. -/
def CmdExport.Run (x : CmdExport) (lib : Lib) (material : Nat → List Nat) (ktx : Context) :
    KMS Exported := do
  match ← x.loop lib material ktx [keySuffixCurrent, keySuffixNext, keySuffixPrevious] [] with
  | .error err => pure ⟨some err, none⟩
  | .ok s =>
    -- Export the keys
    match lib.encodeErr s with
    | some msg => pure ⟨some (.encodingJWKS msg), none⟩
    | none => pure ⟨none, some s⟩

/-! ## Concrete scenarios -/

/-- The empty store. -/
def emptyStore : Store := ⟨[], [], []⟩

/-- Alias prefix "svc". -/
def svc : Context := ⟨"svc"⟩

/-- Forced rotation with `MinimumAge = 0`. -/
def forced : CmdRotate := ⟨0, true, "RSA_2048"⟩

/-- The default configuration: 24h minimum age, no force. -/
def defaults : CmdRotate := ⟨86400000000000, false, "RSA_2048"⟩

/-- A store in the steady state reached after rotations: three keys, one
behind each alias. -/
def steadyStore : Store :=
  ⟨[⟨1, 10⟩, ⟨2, 20⟩, ⟨3, 30⟩],
   [("alias/svc-current", 2), ("alias/svc-previous", 1), ("alias/svc-next", 3)], []⟩

/-- A store before its first rotation completed: current and next exist,
previous does not. -/
def noPreviousStore : Store :=
  ⟨[⟨1, 10⟩, ⟨2, 20⟩], [("alias/svc-current", 1), ("alias/svc-next", 2)], []⟩

/-- A library whose calls all succeed; every key decodes as an RSA key. -/
def okLib : Lib :=
  ⟨fun bytes => .ok ⟨.RSA, bytes⟩, fun _ => none, fun _ _ => none, fun _ _ => none,
    fun _ => none⟩

/-- A first rotation on the empty store in which the provider fails the
eighth call, the `DescribeKey` of the next alias in step 5. -/
def interruptedFirstRun : Ret (Option Err) :=
  (forced.Run svc).run ⟨emptyStore, List.replicate 7 false ++ [true], 100⟩

/-- The rotation run again after `interruptedFirstRun`, no call failing. -/
def retryAfterInterruption : Ret (Option Err) :=
  (forced.Run svc).run ⟨interruptedFirstRun.env.store, [], 200⟩

/-- A rotation of the steady store in which the provider fails the tenth
call, the last `DescribeKey` of step 7. -/
def lateFailure : Ret (Option Err) :=
  (forced.Run svc).run ⟨steadyStore, List.replicate 9 false ++ [true], 100⟩

/-- The rotation run again after `lateFailure`, no call failing. -/
def recovered : Ret (Option Err) :=
  (forced.Run svc).run ⟨lateFailure.env.store, [], 100⟩

/-- A single rotation of the steady store, no call failing. -/
def uninterrupted : Ret (Option Err) :=
  (forced.Run svc).run ⟨steadyStore, [], 100⟩

/-- A store whose next alias does not exist. -/
def noNextStore : Store :=
  ⟨[⟨1, 10⟩, ⟨2, 20⟩], [("alias/svc-current", 2), ("alias/svc-previous", 1)], []⟩

/-- A rotation of `noNextStore` in which the provider fails the sixth call,
the `CreateAlias` of step 5, after the key was created. -/
def nextAliasFailure : Ret (Option Err) :=
  (forced.Run svc).run ⟨noNextStore, List.replicate 5 false ++ [true], 100⟩

/-- The rotation run again after `nextAliasFailure`, no call failing. -/
def recoveredNoNext : Ret (Option Err) :=
  (forced.Run svc).run ⟨nextAliasFailure.env.store, [], 100⟩

/-- A single rotation of `noNextStore`, no call failing. -/
def uninterruptedNoNext : Ret (Option Err) :=
  (forced.Run svc).run ⟨noNextStore, [], 100⟩

/-- A first rotation of the empty store in which the provider fails the
third call, the `CreateAlias` of step 1, after the key was created. -/
def currentAliasFailure : Ret (Option Err) :=
  (forced.Run svc).run ⟨emptyStore, [false, false, true], 100⟩

/-- The rotation run again after `currentAliasFailure`, no call failing. -/
def recoveredEmpty : Ret (Option Err) :=
  (forced.Run svc).run ⟨currentAliasFailure.env.store, [], 100⟩

/-- A single rotation of the empty store, no call failing. -/
def uninterruptedEmpty : Ret (Option Err) :=
  (forced.Run svc).run ⟨emptyStore, [], 100⟩

/-! ## Vocabulary of the statements -/

/-- Every alias of the store points at a key the store holds. -/
def Store.wellFormed (s : Store) : Bool :=
  s.aliases.all fun p => s.keys.any fun k => k.KeyId == p.2

/-- Whether a trace entry is a call or library step that returned an error. -/
def Event.failed : Event → Bool
  | .kms _ _ (some _) => true
  | .kms _ _ none => false
  | .lib _ _ ok => !ok

/-- Whether Go's `error` is the too-young rejection of the age gate. -/
def isTooYoung : Option Err → Bool
  | some (.tooYoung _) => true
  | _ => false

/-- The entry the exporter builds for alias suffix `sfx` from store `st`: the
alias resolves to a key, the entry carries that key's id, the signature
usage and the declared algorithm, around the decoded public key. -/
def Exports (x : CmdExport) (lib : Lib) (material : Nat → List Nat) (ktx : Context)
    (st : Store) (sfx : String) (k : Jwk) : Prop :=
  ∃ m, st.resolve (ktx.keyAlias sfx) = some m ∧
    lib.ParsePKIXPublicKey (material m.KeyId) = .ok k.pub ∧
    k.kid = some m.KeyId ∧ k.use = some ForSignature ∧ k.alg = some x.Algorithm

/-- Whether a trace entry is a `ScheduleKeyDeletion` call. -/
def Event.isSchedule : Event → Bool
  | .kms (.ScheduleKeyDeletion _) _ _ => true
  | _ => false

/-- The result `r` with the calls `t` made before it. -/
def Ret.prepend {α : Type} (t : List Event) (r : Ret α) : Ret α :=
  ⟨r.val, r.env, t ++ r.trace⟩

/-- The error of a Go `(value, err)` pair, `none` for nil. -/
def errOf {ε α : Type} : Except ε α → Option ε
  | .ok _ => none
  | .error err => some err

/-- A trace contains a successful call of the given request. -/
def succeeded (req : Request) (t : List Event) : Prop :=
  ∃ pre, Event.kms req pre none ∈ t

/-- What one `DescribeKey` call on alias `a` guarantees: from environment `e`
it returns `v`, leaves environment `e'` and makes the calls `t`. -/
structure DescribePost (a : String) (e : Env) (v : Except KmsError KeyMetadata) (e' : Env)
    (t : List Event) : Prop where
  env : e' = ⟨e.store, e.faults.tail, e.now⟩
  trace : t = [.kms (.DescribeKey a) e.store (errOf v)]
  ok : ∀ m, v = .ok m → e.store.resolve a = some m
  notFound : v = .error .NotFoundException → e.store.resolve a = none
  fatal : ∀ err, fatal? v = some err → true ∈ e.faults
  reliable : true ∉ e.faults → v.toOption = e.store.resolve a

/-- What one `DeleteAlias` call guarantees. -/
structure DeletePost (a : String) (e : Env) (v : Except KmsError Unit) (e' : Env)
    (t : List Event) : Prop where
  now : e'.now = e.now
  faults : e'.faults = e.faults.tail
  trace : t = [.kms (.DeleteAlias a) e.store (errOf v)]
  ok : v = .ok () → e'.store = e.store.deleteAlias a
  err : ∀ x, v = .error x → e'.store = e.store ∧ (true ∈ e.faults ∨ e.store.target a = none)

/-- What one `ScheduleKeyDeletion` call guarantees. -/
structure SchedulePost (id : Nat) (e : Env) (v : Except KmsError Unit) (e' : Env)
    (t : List Event) : Prop where
  now : e'.now = e.now
  faults : e'.faults = e.faults.tail
  trace : t = [.kms (.ScheduleKeyDeletion id) e.store (errOf v)]
  ok : v = .ok () → e'.store = e.store.schedule id
  err : ∀ x, v = .error x → e'.store = e.store

/-- What every run of `getOrCreateKMSKey` on alias `a` guarantees. -/
structure GetOrCreatePost (spec a : String) (e : Env) (v : Except Err KeyMetadata) (e' : Env)
    (t : List Event) : Prop where
  now : e'.now = e.now
  faults : e'.faults <:+ e.faults
  keys : e.store.keys <+: e'.store.keys
  scheduled : e'.store.scheduled = e.store.scheduled
  others : ∀ b, b ≠ a → e'.store.target b = e.store.target b
  quiet : ∀ ev ∈ t, ev.isSchedule = false
  found : ∀ m, e.store.resolve a = some m →
    e'.store = e.store ∧ (v = .ok m ∨ v = .error (.kms .ServiceFailure))
  direct : ∀ m, e.faulty = false → e.store.resolve a = some m → v = .ok m
  ok : ∀ k, v = .ok k →
    e'.store.resolve a = some k ∧
    (e.store.resolve a = some k ∨
      (e.store.target a = none ∧ k = ⟨e.store.freshId, e.now⟩ ∧
        e'.store = (e.store.addKey k).createAlias a k.KeyId ∧
        succeeded (.CreateKey spec) t ∧ succeeded (.CreateAlias a k.KeyId) t))
  err : ∀ x, v = .error x →
    true ∈ e.faults ∨ (e.store.resolve a = none ∧ e.store.target a ≠ none)

/-- What every run of `updateOrCreateAlias` on alias `a` and key `id`
guarantees. -/
structure UpsertPost (a : String) (id : Nat) (e : Env) (v : Option Err) (e' : Env)
    (t : List Event) : Prop where
  now : e'.now = e.now
  faults : e'.faults <:+ e.faults
  keys : e'.store.keys = e.store.keys
  scheduled : e'.store.scheduled = e.store.scheduled
  others : ∀ b, b ≠ a → e'.store.target b = e.store.target b
  quiet : ∀ ev ∈ t, ev.isSchedule = false
  ok : v = none →
    e'.store.target a = some id ∧
    (succeeded (.UpdateAlias a id) t ∨ succeeded (.CreateAlias a id) t)
  err : ∀ x, v = some x → e'.store = e.store ∧ true ∈ e.faults

/-! ## Lemmas about the store -/

theorem lookup_cons_ite (l : List (String × Nat)) (a c : String) (j : Nat) :
    ((c, j) :: l).lookup a = if a = c then some j else l.lookup a := by
  by_cases h : a = c
  · subst h
    simp
  · have hb : (a == c) = false := by simpa using h
    simp [List.lookup_cons, hb, h]

theorem lookup_map_set (l : List (String × Nat)) (a b : String) (id : Nat) :
    (l.map fun p => if p.1 = b then (b, id) else p).lookup a =
      if a = b then (l.lookup b).map (fun _ => id) else l.lookup a := by
  induction l with
  | nil => simp
  | cons p l ih =>
    obtain ⟨c, j⟩ := p
    by_cases hc : c = b
    · subst hc
      by_cases hac : a = c
      · subst hac
        simp [lookup_cons_ite]
      · simp [lookup_cons_ite, hac] at ih ⊢
        exact ih
    · simp only [List.map_cons, hc, if_false, lookup_cons_ite, ih]
      by_cases hab : a = b
      · subst hab
        have hca : ¬ a = c := fun h => hc h.symm
        simp [hca, hc]
      · simp [hab]

theorem lookup_filter_ne (l : List (String × Nat)) (a b : String) :
    (l.filter fun p => p.1 ≠ b).lookup a = if a = b then none else l.lookup a := by
  induction l with
  | nil => simp
  | cons p l ih =>
    obtain ⟨c, j⟩ := p
    by_cases hc : c = b
    · subst hc
      by_cases hac : a = c
      · subst hac
        simpa [List.filter_cons] using ih
      · simp only [ne_eq, hac, if_false, decide_not] at ih
        simp [List.filter_cons, lookup_cons_ite, hac, ih]
    · by_cases hab : a = b
      · subst hab
        have hca : ¬ a = c := fun h => hc h.symm
        simp only [ne_eq, if_true, decide_not] at ih
        simp only [ne_eq, decide_not, List.filter_cons, hc, decide_False, Bool.not_false,
          if_true, lookup_cons_ite, hca, if_false, ih]
      · simp only [ne_eq, hab, if_false, decide_not] at ih
        simp only [ne_eq, decide_not, List.filter_cons, hc, decide_False, Bool.not_false,
          if_true, lookup_cons_ite, hab, if_false, ih]

theorem Store.target_createAlias (s : Store) (a b : String) (id : Nat) :
    (s.createAlias b id).target a = (s.target a).or (if a = b then some id else none) := by
  by_cases h : a = b <;>
    simp [Store.createAlias, Store.target, List.lookup_append, lookup_cons_ite, h]

theorem Store.target_updateAlias (s : Store) (a b : String) (id : Nat) :
    (s.updateAlias b id).target a =
      if a = b then (s.target b).map (fun _ => id) else s.target a := by
  simp [Store.updateAlias, Store.target, lookup_map_set]

theorem Store.target_deleteAlias (s : Store) (a b : String) :
    (s.deleteAlias b).target a = if a = b then none else s.target a := by
  simpa [Store.deleteAlias, Store.target] using lookup_filter_ne s.aliases a b

theorem Store.le_freshId (s : Store) (k : KeyMetadata) (h : k ∈ s.keys) :
    k.KeyId < s.freshId := by
  obtain ⟨keys, al, sch⟩ := s
  simp only [Store.freshId]
  induction keys with
  | nil => simp at h
  | cons x xs ih =>
    simp only [List.mem_cons] at h
    simp only [List.map_cons, List.foldr_cons]
    rcases h with h | h
    · subst h
      omega
    · have := ih h
      omega

theorem Store.find_freshId (s : Store) :
    s.keys.find? (fun k => k.KeyId == s.freshId) = none := by
  simp only [List.find?_eq_none, beq_iff_eq]
  intro k hk h
  have := s.le_freshId k hk
  omega

/-! ## Lemmas about the monad and the store calls -/

theorem bind_apply {α β : Type} (m : KMS α) (k : α → KMS β) (e : Env) :
    (m >>= k) e =
      ⟨(k (m e).val (m e).env).val, (k (m e).val (m e).env).env,
        (m e).trace ++ (k (m e).val (m e).env).trace⟩ := rfl

theorem pure_apply {α : Type} (a : α) (e : Env) : (pure a : KMS α) e = ⟨a, e, []⟩ := rfl

theorem call_cases {α : Type} (req : Request) (f : Env → Except KmsError (α × Store))
    (e : Env) :
    (e.faulty = true ∧
      call req f e = ⟨.error .ServiceFailure, ⟨e.store, e.faults.tail, e.now⟩,
        [.kms req e.store (some .ServiceFailure)]⟩) ∨
    (e.faulty = false ∧ ∃ err, f e = .error err ∧
      call req f e = ⟨.error err, ⟨e.store, e.faults.tail, e.now⟩,
        [.kms req e.store (some err)]⟩) ∨
    (e.faulty = false ∧ ∃ a s, f e = .ok (a, s) ∧
      call req f e = ⟨.ok a, ⟨s, e.faults.tail, e.now⟩, [.kms req e.store none]⟩) := by
  unfold call
  cases hf : e.faulty
  · right
    rcases hfe : f e with err | ⟨a, s⟩
    · left
      exact ⟨rfl, err, rfl, by simp [Env.tick]⟩
    · right
      exact ⟨rfl, a, s, rfl, by simp [Env.tick]⟩
  · left
    exact ⟨rfl, by simp [Env.tick]⟩

theorem DescribeKey_cases (a : String) (e : Env) :
    (e.faulty = true ∧
      DescribeKey a e = ⟨.error .ServiceFailure, ⟨e.store, e.faults.tail, e.now⟩,
        [.kms (.DescribeKey a) e.store (some .ServiceFailure)]⟩) ∨
    (e.faulty = false ∧ e.store.resolve a = none ∧
      DescribeKey a e = ⟨.error .NotFoundException, ⟨e.store, e.faults.tail, e.now⟩,
        [.kms (.DescribeKey a) e.store (some .NotFoundException)]⟩) ∨
    (e.faulty = false ∧ ∃ m, e.store.resolve a = some m ∧
      DescribeKey a e = ⟨.ok m, ⟨e.store, e.faults.tail, e.now⟩,
        [.kms (.DescribeKey a) e.store none]⟩) := by
  unfold DescribeKey
  rcases call_cases (.DescribeKey a) (fun e : Env =>
      match e.store.resolve a with
      | some m => Except.ok (m, e.store)
      | none => Except.error KmsError.NotFoundException) e with
    ⟨hf, h⟩ | ⟨hf, err, hfe, h⟩ | ⟨hf, m, s, hfe, h⟩
  · exact .inl ⟨hf, h⟩
  · cases hr : e.store.resolve a with
    | none =>
      simp only [hr] at hfe
      cases hfe
      exact .inr (.inl ⟨hf, rfl, h⟩)
    | some m => simp [hr] at hfe
  · cases hr : e.store.resolve a with
    | none => simp [hr] at hfe
    | some m' =>
      simp only [hr, Except.ok.injEq, Prod.mk.injEq] at hfe
      obtain ⟨rfl, rfl⟩ := hfe
      exact .inr (.inr ⟨hf, m', rfl, h⟩)

theorem CreateKey_cases (spec : String) (e : Env) :
    (e.faulty = true ∧
      CreateKey spec e = ⟨.error .ServiceFailure, ⟨e.store, e.faults.tail, e.now⟩,
        [.kms (.CreateKey spec) e.store (some .ServiceFailure)]⟩) ∨
    (e.faulty = false ∧
      CreateKey spec e = ⟨.ok ⟨e.store.freshId, e.now⟩,
        ⟨e.store.addKey ⟨e.store.freshId, e.now⟩, e.faults.tail, e.now⟩,
        [.kms (.CreateKey spec) e.store none]⟩) := by
  unfold CreateKey
  rcases call_cases (.CreateKey spec) (fun e : Env =>
      let k : KeyMetadata := ⟨e.store.freshId, e.now⟩
      Except.ok (k, e.store.addKey k)) e with
    ⟨hf, h⟩ | ⟨hf, err, hfe, h⟩ | ⟨hf, m, s, hfe, h⟩
  · exact .inl ⟨hf, h⟩
  · simp at hfe
  · simp only [Except.ok.injEq, Prod.mk.injEq] at hfe
    obtain ⟨rfl, rfl⟩ := hfe
    exact .inr ⟨hf, h⟩

theorem CreateAlias_cases (a : String) (id : Nat) (e : Env) :
    (e.faulty = true ∧
      CreateAlias a id e = ⟨.error .ServiceFailure, ⟨e.store, e.faults.tail, e.now⟩,
        [.kms (.CreateAlias a id) e.store (some .ServiceFailure)]⟩) ∨
    (e.faulty = false ∧ (∃ j, e.store.target a = some j) ∧
      CreateAlias a id e = ⟨.error .AlreadyExistsException, ⟨e.store, e.faults.tail, e.now⟩,
        [.kms (.CreateAlias a id) e.store (some .AlreadyExistsException)]⟩) ∨
    (e.faulty = false ∧ e.store.target a = none ∧
      CreateAlias a id e = ⟨.ok (), ⟨e.store.createAlias a id, e.faults.tail, e.now⟩,
        [.kms (.CreateAlias a id) e.store none]⟩) := by
  unfold CreateAlias
  rcases call_cases (.CreateAlias a id) (fun e : Env =>
      match e.store.target a with
      | some _ => Except.error KmsError.AlreadyExistsException
      | none => Except.ok ((), e.store.createAlias a id)) e with
    ⟨hf, h⟩ | ⟨hf, err, hfe, h⟩ | ⟨hf, m, s, hfe, h⟩
  · exact .inl ⟨hf, h⟩
  · cases hr : e.store.target a with
    | none => simp [hr] at hfe
    | some j =>
      simp only [hr] at hfe
      cases hfe
      exact .inr (.inl ⟨hf, ⟨j, rfl⟩, h⟩)
  · cases hr : e.store.target a with
    | none =>
      simp only [hr, Except.ok.injEq, Prod.mk.injEq] at hfe
      obtain ⟨-, rfl⟩ := hfe
      exact .inr (.inr ⟨hf, rfl, h⟩)
    | some j => simp [hr] at hfe

theorem UpdateAlias_cases (a : String) (id : Nat) (e : Env) :
    (e.faulty = true ∧
      UpdateAlias a id e = ⟨.error .ServiceFailure, ⟨e.store, e.faults.tail, e.now⟩,
        [.kms (.UpdateAlias a id) e.store (some .ServiceFailure)]⟩) ∨
    (e.faulty = false ∧ e.store.target a = none ∧
      UpdateAlias a id e = ⟨.error .NotFoundException, ⟨e.store, e.faults.tail, e.now⟩,
        [.kms (.UpdateAlias a id) e.store (some .NotFoundException)]⟩) ∨
    (e.faulty = false ∧ (∃ j, e.store.target a = some j) ∧
      UpdateAlias a id e = ⟨.ok (), ⟨e.store.updateAlias a id, e.faults.tail, e.now⟩,
        [.kms (.UpdateAlias a id) e.store none]⟩) := by
  unfold UpdateAlias
  rcases call_cases (.UpdateAlias a id) (fun e : Env =>
      match e.store.target a with
      | none => Except.error KmsError.NotFoundException
      | some _ => Except.ok ((), e.store.updateAlias a id)) e with
    ⟨hf, h⟩ | ⟨hf, err, hfe, h⟩ | ⟨hf, m, s, hfe, h⟩
  · exact .inl ⟨hf, h⟩
  · cases hr : e.store.target a with
    | none =>
      simp only [hr] at hfe
      cases hfe
      exact .inr (.inl ⟨hf, rfl, h⟩)
    | some j => simp [hr] at hfe
  · cases hr : e.store.target a with
    | none => simp [hr] at hfe
    | some j =>
      simp only [hr, Except.ok.injEq, Prod.mk.injEq] at hfe
      obtain ⟨-, rfl⟩ := hfe
      exact .inr (.inr ⟨hf, ⟨j, rfl⟩, h⟩)

theorem DeleteAlias_cases (a : String) (e : Env) :
    (e.faulty = true ∧
      DeleteAlias a e = ⟨.error .ServiceFailure, ⟨e.store, e.faults.tail, e.now⟩,
        [.kms (.DeleteAlias a) e.store (some .ServiceFailure)]⟩) ∨
    (e.faulty = false ∧ e.store.target a = none ∧
      DeleteAlias a e = ⟨.error .NotFoundException, ⟨e.store, e.faults.tail, e.now⟩,
        [.kms (.DeleteAlias a) e.store (some .NotFoundException)]⟩) ∨
    (e.faulty = false ∧ (∃ j, e.store.target a = some j) ∧
      DeleteAlias a e = ⟨.ok (), ⟨e.store.deleteAlias a, e.faults.tail, e.now⟩,
        [.kms (.DeleteAlias a) e.store none]⟩) := by
  unfold DeleteAlias
  rcases call_cases (.DeleteAlias a) (fun e : Env =>
      match e.store.target a with
      | none => Except.error KmsError.NotFoundException
      | some _ => Except.ok ((), e.store.deleteAlias a)) e with
    ⟨hf, h⟩ | ⟨hf, err, hfe, h⟩ | ⟨hf, m, s, hfe, h⟩
  · exact .inl ⟨hf, h⟩
  · cases hr : e.store.target a with
    | none =>
      simp only [hr] at hfe
      cases hfe
      exact .inr (.inl ⟨hf, rfl, h⟩)
    | some j => simp [hr] at hfe
  · cases hr : e.store.target a with
    | none => simp [hr] at hfe
    | some j =>
      simp only [hr, Except.ok.injEq, Prod.mk.injEq] at hfe
      obtain ⟨-, rfl⟩ := hfe
      exact .inr (.inr ⟨hf, ⟨j, rfl⟩, h⟩)

theorem ScheduleKeyDeletion_cases (id : Nat) (e : Env) :
    (∃ err, ScheduleKeyDeletion id e = ⟨.error err, ⟨e.store, e.faults.tail, e.now⟩,
        [.kms (.ScheduleKeyDeletion id) e.store (some err)]⟩) ∨
    (e.faulty = false ∧
      ScheduleKeyDeletion id e = ⟨.ok (), ⟨e.store.schedule id, e.faults.tail, e.now⟩,
        [.kms (.ScheduleKeyDeletion id) e.store none]⟩) := by
  unfold ScheduleKeyDeletion
  rcases call_cases (.ScheduleKeyDeletion id) (fun e : Env =>
      if e.store.keys.all (fun k => k.KeyId != id) then Except.error KmsError.NotFoundException
      else if id ∈ e.store.scheduled then Except.error KmsError.KMSInvalidStateException
      else Except.ok ((), e.store.schedule id)) e with
    ⟨hf, h⟩ | ⟨hf, err, hfe, h⟩ | ⟨hf, m, s, hfe, h⟩
  · exact .inl ⟨_, h⟩
  · exact .inl ⟨_, h⟩
  · right
    refine ⟨hf, ?_⟩
    split at hfe
    · simp at hfe
    · split at hfe
      · simp at hfe
      · simp only [Except.ok.injEq, Prod.mk.injEq] at hfe
        obtain ⟨-, rfl⟩ := hfe
        exact h

theorem Env.mem_of_faulty {s : Store} {f : List Bool} {n : Int}
    (h : (Env.mk s f n).faulty = true) : true ∈ f := by
  cases f with
  | nil => simp [Env.faulty] at h
  | cons b f => simp [Env.faulty] at h; simp [h]

theorem Env.mem_faults_of_faulty {e : Env} (h : e.faulty = true) : true ∈ e.faults :=
  Env.mem_of_faulty (s := e.store) (n := e.now) h

theorem mem_of_mem_tail {f : List Bool} (h : true ∈ f.tail) : true ∈ f := by
  cases f with
  | nil => simp at h
  | cons b f => simp at h; simp [h]

@[simp] theorem Store.target_addKey (s : Store) (k : KeyMetadata) (a : String) :
    (s.addKey k).target a = s.target a := rfl

@[simp] theorem Store.target_schedule (s : Store) (id : Nat) (a : String) :
    (s.schedule id).target a = s.target a := rfl

theorem Store.resolve_created (s : Store) (a : String) (n : Int) (h : s.target a = none) :
    ((s.addKey ⟨s.freshId, n⟩).createAlias a s.freshId).resolve a = some ⟨s.freshId, n⟩ := by
  have ht : ((s.addKey ⟨s.freshId, n⟩).createAlias a s.freshId).target a = some s.freshId := by
    rw [Store.target_createAlias]
    simp [h]
  unfold Store.resolve
  rw [ht]
  simp [Store.createAlias, Store.addKey, Store.find_freshId]

/-! ## The two helpers of rotate.go -/

theorem tail2_suffix (f : List Bool) : f.tail.tail <:+ f :=
  (List.tail_suffix _).trans (List.tail_suffix _)

theorem tail3_suffix (f : List Bool) : f.tail.tail.tail <:+ f :=
  (List.tail_suffix _).trans (tail2_suffix _)

theorem tail4_suffix (f : List Bool) : f.tail.tail.tail.tail <:+ f :=
  (List.tail_suffix _).trans (tail3_suffix _)

theorem getOrCreate_cases (r : CmdRotate) (ktx : Context) (sfx : String) (e : Env) :
    (∃ m, e.store.resolve (ktx.keyAlias sfx) = some m ∧ e.faulty = false ∧
      (r.getOrCreateKMSKey ktx sfx).run e =
        ⟨.ok m, ⟨e.store, e.faults.tail, e.now⟩,
          [.kms (.DescribeKey (ktx.keyAlias sfx)) e.store none]⟩) ∨
    (e.store.resolve (ktx.keyAlias sfx) = none ∧ e.store.target (ktx.keyAlias sfx) = none ∧
      (r.getOrCreateKMSKey ktx sfx).run e =
        ⟨.ok ⟨e.store.freshId, e.now⟩,
          ⟨(e.store.addKey ⟨e.store.freshId, e.now⟩).createAlias (ktx.keyAlias sfx)
              e.store.freshId, e.faults.tail.tail.tail.tail, e.now⟩,
          [.kms (.DescribeKey (ktx.keyAlias sfx)) e.store (some .NotFoundException),
           .kms (.CreateKey r.KeySpec) e.store none,
           .kms (.CreateAlias (ktx.keyAlias sfx) e.store.freshId)
              (e.store.addKey ⟨e.store.freshId, e.now⟩) none,
           .kms (.DescribeKey (ktx.keyAlias sfx))
              ((e.store.addKey ⟨e.store.freshId, e.now⟩).createAlias (ktx.keyAlias sfx)
                e.store.freshId) none]⟩) ∨
    (∃ err s' f',
      ((r.getOrCreateKMSKey ktx sfx).run e).val = .error err ∧
      ((r.getOrCreateKMSKey ktx sfx).run e).env = ⟨s', f', e.now⟩ ∧
      f' <:+ e.faults ∧
      (s' = e.store ∨ s' = e.store.addKey ⟨e.store.freshId, e.now⟩ ∨
        s' = (e.store.addKey ⟨e.store.freshId, e.now⟩).createAlias (ktx.keyAlias sfx)
          e.store.freshId) ∧
      (∀ m, e.store.resolve (ktx.keyAlias sfx) = some m →
        s' = e.store ∧ err = .kms .ServiceFailure) ∧
      (∀ ev ∈ ((r.getOrCreateKMSKey ktx sfx).run e).trace, ev.isSchedule = false) ∧
      (e.faulty = false → e.store.resolve (ktx.keyAlias sfx) = none) ∧
      (true ∈ e.faults ∨
        (e.store.resolve (ktx.keyAlias sfx) = none ∧
          e.store.target (ktx.keyAlias sfx) ≠ none))) := by
  simp only [KMS.run, CmdRotate.getOrCreateKMSKey, bind_apply]
  rcases DescribeKey_cases (ktx.keyAlias sfx) e with ⟨hf, h⟩ | ⟨hf, hr, h⟩ | ⟨hf, m, hr, h⟩
  · simp only [h, pure_apply]
    refine .inr (.inr ⟨_, _, _, rfl, rfl, List.tail_suffix _, .inl rfl, fun _ _ => ⟨rfl, rfl⟩, ?_,
      ?_, .inl (Env.mem_faults_of_faulty hf)⟩)
    · simp [Event.isSchedule]
    · intro hf'
      rw [hf] at hf'
      simp at hf'
  · simp only [h, bind_apply]
    rcases CreateKey_cases r.KeySpec ⟨e.store, e.faults.tail, e.now⟩ with ⟨hf2, h2⟩ | ⟨hf2, h2⟩
    · simp only [h2, pure_apply]
      refine .inr (.inr ⟨_, _, _, rfl, rfl, tail2_suffix _, .inl rfl, ?_, ?_, fun _ => hr,
        .inl (mem_of_mem_tail (Env.mem_of_faulty hf2))⟩)
      · simp [hr]
      · simp [Event.isSchedule]
    · simp only [h2, bind_apply]
      rcases CreateAlias_cases (ktx.keyAlias sfx) e.store.freshId
          ⟨e.store.addKey ⟨e.store.freshId, e.now⟩, e.faults.tail.tail, e.now⟩ with
        ⟨hf3, h3⟩ | ⟨hf3, ⟨j, hj⟩, h3⟩ | ⟨hf3, ht, h3⟩
      · simp only [h3, pure_apply]
        refine .inr (.inr ⟨_, _, _, rfl, rfl, tail3_suffix _, .inr (.inl rfl), ?_, ?_,
          fun _ => hr, .inl (mem_of_mem_tail (mem_of_mem_tail (Env.mem_of_faulty hf3)))⟩)
        · simp [hr]
        · simp [Event.isSchedule]
      · simp only [h3, pure_apply]
        refine .inr (.inr ⟨_, _, _, rfl, rfl, tail3_suffix _, .inr (.inl rfl), ?_, ?_,
          fun _ => hr, .inr ⟨hr, ?_⟩⟩)
        · simp [hr]
        · simp [Event.isSchedule]
        · simp only [Store.target_addKey] at hj
          simp [hj]
      · simp only [h3, bind_apply]
        simp only [Store.target_addKey] at ht
        rcases DescribeKey_cases (ktx.keyAlias sfx)
            ⟨(e.store.addKey ⟨e.store.freshId, e.now⟩).createAlias (ktx.keyAlias sfx)
              e.store.freshId, e.faults.tail.tail.tail, e.now⟩ with
          ⟨hf4, h4⟩ | ⟨hf4, hr4, h4⟩ | ⟨hf4, m4, hr4, h4⟩
        · simp only [h4, pure_apply]
          refine .inr (.inr ⟨_, _, _, rfl, rfl, tail4_suffix _, .inr (.inr rfl), ?_, ?_,
            fun _ => hr, .inl (mem_of_mem_tail (mem_of_mem_tail (mem_of_mem_tail (Env.mem_of_faulty hf4))))⟩)
          · simp [hr]
          · simp [Event.isSchedule]
        · simp [Store.resolve_created _ _ _ ht] at hr4
        · simp only [Store.resolve_created _ _ _ ht, Option.some.injEq] at hr4
          subst hr4
          simp only [h4, pure_apply]
          exact .inr (.inl ⟨hr, ht, by simp⟩)
  · simp only [h, pure_apply]
    exact .inl ⟨m, hr, hf, by simp⟩

theorem updateOrCreate_cases (ktx : Context) (sfx : String) (id : Nat) (e : Env) :
    ((∃ j, e.store.target (ktx.keyAlias sfx) = some j) ∧ e.faulty = false ∧
      (updateOrCreateAlias ktx sfx id).run e =
        ⟨none, ⟨e.store.updateAlias (ktx.keyAlias sfx) id, e.faults.tail, e.now⟩,
          [.kms (.UpdateAlias (ktx.keyAlias sfx) id) e.store none]⟩) ∨
    (e.store.target (ktx.keyAlias sfx) = none ∧
      (updateOrCreateAlias ktx sfx id).run e =
        ⟨none, ⟨e.store.createAlias (ktx.keyAlias sfx) id, e.faults.tail.tail, e.now⟩,
          [.kms (.UpdateAlias (ktx.keyAlias sfx) id) e.store (some .NotFoundException),
           .kms (.CreateAlias (ktx.keyAlias sfx) id) e.store none]⟩) ∨
    (∃ err f',
      ((updateOrCreateAlias ktx sfx id).run e).val = some err ∧
      ((updateOrCreateAlias ktx sfx id).run e).env = ⟨e.store, f', e.now⟩ ∧
      f' <:+ e.faults ∧
      (∀ ev ∈ ((updateOrCreateAlias ktx sfx id).run e).trace, ev.isSchedule = false) ∧
      true ∈ e.faults) := by
  simp only [KMS.run, updateOrCreateAlias, bind_apply]
  rcases UpdateAlias_cases (ktx.keyAlias sfx) id e with ⟨hf, h⟩ | ⟨hf, ht, h⟩ | ⟨hf, hj, h⟩
  · simp only [h, pure_apply]
    refine .inr (.inr ⟨_, _, rfl, rfl, List.tail_suffix _, ?_, Env.mem_faults_of_faulty hf⟩)
    simp [Event.isSchedule]
  · simp only [h, bind_apply]
    rcases CreateAlias_cases (ktx.keyAlias sfx) id ⟨e.store, e.faults.tail, e.now⟩ with
      ⟨hf2, h2⟩ | ⟨hf2, ⟨j, hj⟩, h2⟩ | ⟨hf2, ht2, h2⟩
    · simp only [h2, pure_apply]
      refine .inr (.inr ⟨_, _, rfl, rfl, ?_, ?_, mem_of_mem_tail (Env.mem_of_faulty hf2)⟩)
      · exact (List.tail_suffix _).trans (List.tail_suffix _)
      · simp [Event.isSchedule]
    · simp [ht] at hj
    · simp only [h2, pure_apply]
      exact .inr (.inl ⟨ht, by simp⟩)
  · simp only [h, pure_apply]
    exact .inl ⟨hj, hf, by simp⟩

theorem Store.target_createAlias_ne (s : Store) (a b : String) (id : Nat) (h : b ≠ a) :
    (s.createAlias a id).target b = s.target b := by
  rw [Store.target_createAlias]
  simp [h]

theorem getOrCreate_post (r : CmdRotate) (ktx : Context) (sfx : String) (e : Env) :
    GetOrCreatePost r.KeySpec (ktx.keyAlias sfx) e ((r.getOrCreateKMSKey ktx sfx).run e).val
      ((r.getOrCreateKMSKey ktx sfx).run e).env ((r.getOrCreateKMSKey ktx sfx).run e).trace := by
  rcases getOrCreate_cases r ktx sfx e with
    ⟨m, hr, hf, h⟩ | ⟨hr, ht, h⟩ | ⟨err, s', f', hv, he, hsuf, hs, hres, htr, hdir, hwhy⟩
  · rw [h]
    refine ⟨rfl, List.tail_suffix _, List.prefix_refl _, rfl, fun _ _ => rfl, ?_, ?_, ?_, ?_,
      ?_⟩
    · simp [Event.isSchedule]
    · intro m' hm'
      simp only [hr, Option.some.injEq] at hm'
      subst hm'
      exact ⟨rfl, .inl rfl⟩
    · intro m' _ hm'
      simp only [hr, Option.some.injEq] at hm'
      subst hm'
      rfl
    · intro k hk
      simp only [Except.ok.injEq] at hk
      subst hk
      exact ⟨hr, .inl hr⟩
    · intro err herr
      simp at herr
  · rw [h]
    refine ⟨rfl, tail4_suffix _, ?_, rfl, ?_, ?_, ?_, ?_, ?_, ?_⟩
    · simp [Store.createAlias, Store.addKey]
    · intro b hb
      simp [Store.target_createAlias_ne _ _ _ _ hb]
    · simp [Event.isSchedule]
    · intro m' hm'
      simp [hr] at hm'
    · intro m' _ hm'
      simp [hr] at hm'
    · intro k hk
      simp only [Except.ok.injEq] at hk
      subst hk
      exact ⟨Store.resolve_created _ _ _ ht, .inr ⟨ht, rfl, rfl, ⟨e.store, by simp⟩,
        ⟨e.store.addKey ⟨e.store.freshId, e.now⟩, by simp⟩⟩⟩
    · intro err herr
      simp at herr
  · generalize (r.getOrCreateKMSKey ktx sfx).run e = o at hv he htr
    obtain ⟨v, env, t⟩ := o
    simp only at hv he htr
    subst hv he
    refine ⟨rfl, hsuf, ?_, ?_, ?_, htr, ?_, ?_, ?_, ?_⟩
    · rcases hs with rfl | rfl | rfl <;> simp [Store.createAlias, Store.addKey]
    · rcases hs with rfl | rfl | rfl <;> rfl
    · intro b hb
      rcases hs with rfl | rfl | rfl
      · rfl
      · rfl
      · simp [Store.target_createAlias_ne _ _ _ _ hb]
    · intro m hm
      obtain ⟨h1, h2⟩ := hres m hm
      exact ⟨h1, .inr (by rw [h2])⟩
    · intro m hf hm
      rw [hdir hf] at hm
      simp at hm
    · intro k hk
      simp at hk
    · intro _ _
      exact hwhy

theorem Store.target_updateAlias_ne (s : Store) (a b : String) (id : Nat) (h : b ≠ a) :
    (s.updateAlias a id).target b = s.target b := by
  rw [Store.target_updateAlias]
  simp [h]

theorem updateOrCreate_post (ktx : Context) (sfx : String) (id : Nat) (e : Env) :
    UpsertPost (ktx.keyAlias sfx) id e ((updateOrCreateAlias ktx sfx id).run e).val
      ((updateOrCreateAlias ktx sfx id).run e).env
      ((updateOrCreateAlias ktx sfx id).run e).trace := by
  rcases updateOrCreate_cases ktx sfx id e with
    ⟨⟨j, hj⟩, hf, h⟩ | ⟨ht, h⟩ | ⟨err, f', hv, he, hsuf, htr, hwhy⟩
  · rw [h]
    refine ⟨rfl, List.tail_suffix _, rfl, rfl, ?_, ?_, ?_, ?_⟩
    · intro b hb
      exact Store.target_updateAlias_ne _ _ _ _ hb
    · simp [Event.isSchedule]
    · intro _
      refine ⟨?_, .inl ⟨e.store, by simp⟩⟩
      simp [Store.target_updateAlias, hj]
    · intro err herr
      simp at herr
  · rw [h]
    refine ⟨rfl, tail2_suffix _, rfl, rfl, ?_, ?_, ?_, ?_⟩
    · intro b hb
      exact Store.target_createAlias_ne _ _ _ _ hb
    · simp [Event.isSchedule]
    · intro _
      refine ⟨?_, .inr ⟨e.store, by simp⟩⟩
      simp [Store.target_createAlias, ht]
    · intro err herr
      simp at herr
  · generalize (updateOrCreateAlias ktx sfx id).run e = o at hv he htr
    obtain ⟨v, env, t⟩ := o
    simp only at hv he htr
    subst hv he
    refine ⟨rfl, hsuf, rfl, rfl, fun _ _ => rfl, htr, ?_, ?_⟩
    · intro h
      simp at h
    · intro _ _
      exact ⟨rfl, hwhy⟩

/-! ## Alias names -/

theorem keyAlias_eq (c : Context) (suffix : String) :
    c.keyAlias suffix = "alias/" ++ c.KeyAliasPrefix ++ suffix := rfl

theorem data_next : keySuffixNext.data = ['-', 'n', 'e', 'x', 't'] := rfl

theorem data_current : keySuffixCurrent.data = ['-', 'c', 'u', 'r', 'r', 'e', 'n', 't'] := rfl

theorem data_previous :
    keySuffixPrevious.data = ['-', 'p', 'r', 'e', 'v', 'i', 'o', 'u', 's'] := rfl

theorem keyAlias_data (c : Context) (suffix : String) :
    (c.keyAlias suffix).data = "alias/".data ++ (c.KeyAliasPrefix.data ++ suffix.data) := by
  simp [Context.keyAlias, String.data_append]

theorem keyAlias_inj (c1 c2 : Context) (g1 g2 : String)
    (h1 : g1 = keySuffixCurrent ∨ g1 = keySuffixNext ∨ g1 = keySuffixPrevious)
    (h2 : g2 = keySuffixCurrent ∨ g2 = keySuffixNext ∨ g2 = keySuffixPrevious)
    (h : c1.keyAlias g1 = c2.keyAlias g2) :
    c1.KeyAliasPrefix = c2.KeyAliasPrefix ∧ g1 = g2 := by
  have hd : c1.KeyAliasPrefix.data ++ g1.data = c2.KeyAliasPrefix.data ++ g2.data := by
    have := congrArg String.data h
    rw [keyAlias_data, keyAlias_data] at this
    exact List.append_cancel_left this
  have hrev := congrArg List.reverse hd
  simp only [List.reverse_append] at hrev
  rcases h1 with rfl | rfl | rfl <;> rcases h2 with rfl | rfl | rfl
  all_goals first
    | (refine ⟨String.ext (List.append_cancel_right hd), rfl⟩)
    | (exfalso
       simp only [data_next, data_current, data_previous, List.reverse_cons, List.reverse_nil,
         List.nil_append, List.cons_append, List.cons.injEq] at hrev
       exact absurd hrev.2.1 (by decide))

theorem keySuffix_ne :
    keySuffixCurrent ≠ keySuffixNext ∧ keySuffixCurrent ≠ keySuffixPrevious ∧
      keySuffixNext ≠ keySuffixPrevious := by decide

theorem alias_cur_ne_next (ktx : Context) :
    ktx.keyAlias keySuffixCurrent ≠ ktx.keyAlias keySuffixNext := fun h =>
  keySuffix_ne.1 (keyAlias_inj ktx ktx _ _ (.inl rfl) (.inr (.inl rfl)) h).2

theorem alias_cur_ne_prev (ktx : Context) :
    ktx.keyAlias keySuffixCurrent ≠ ktx.keyAlias keySuffixPrevious := fun h =>
  keySuffix_ne.2.1 (keyAlias_inj ktx ktx _ _ (.inl rfl) (.inr (.inr rfl)) h).2

theorem alias_next_ne_prev (ktx : Context) :
    ktx.keyAlias keySuffixNext ≠ ktx.keyAlias keySuffixPrevious := fun h =>
  keySuffix_ne.2.2 (keyAlias_inj ktx ktx _ _ (.inr (.inl rfl)) (.inr (.inr rfl)) h).2

theorem bind_eq {α β : Type} (m : KMS α) (k : α → KMS β) (e : Env) :
    (m >>= k) e = Ret.prepend (m e).trace (k (m e).val (m e).env) := rfl

@[simp] theorem prepend_nil {α : Type} (r : Ret α) : Ret.prepend [] r = r := rfl

theorem DescribeKey_post (a : String) (e : Env) :
    DescribePost a e (DescribeKey a e).val (DescribeKey a e).env (DescribeKey a e).trace := by
  rcases DescribeKey_cases a e with ⟨hf, h⟩ | ⟨hf, hr, h⟩ | ⟨hf, m, hr, h⟩
  · rw [h]
    refine ⟨rfl, rfl, ?_, ?_, ?_, ?_⟩
    · intro m hm; simp at hm
    · intro hm; simp at hm
    · intro _ _; exact Env.mem_faults_of_faulty hf
    · intro hn; exact absurd (Env.mem_faults_of_faulty hf) hn
  · rw [h]
    refine ⟨rfl, rfl, ?_, ?_, ?_, ?_⟩
    · intro m hm; simp at hm
    · intro _; exact hr
    · intro err herr; simp [fatal?] at herr
    · intro _; simp [hr, Except.toOption]
  · rw [h]
    refine ⟨rfl, rfl, ?_, ?_, ?_, ?_⟩
    · intro m' hm; simp only [Except.ok.injEq] at hm; subst hm; exact hr
    · intro hm; simp at hm
    · intro err herr; simp [fatal?] at herr
    · intro _; simp [hr, Except.toOption]

theorem DeleteAlias_post (a : String) (e : Env) :
    DeletePost a e (DeleteAlias a e).val (DeleteAlias a e).env (DeleteAlias a e).trace := by
  rcases DeleteAlias_cases a e with ⟨hf, h⟩ | ⟨hf, ht, h⟩ | ⟨hf, hj, h⟩
  · rw [h]
    refine ⟨rfl, rfl, rfl, ?_, ?_⟩
    · intro hm; simp at hm
    · intro _ _; exact ⟨rfl, .inl (Env.mem_faults_of_faulty hf)⟩
  · rw [h]
    refine ⟨rfl, rfl, rfl, ?_, ?_⟩
    · intro hm; simp at hm
    · intro _ _; exact ⟨rfl, .inr ht⟩
  · rw [h]
    refine ⟨rfl, rfl, rfl, ?_, ?_⟩
    · intro _; rfl
    · intro err herr; simp at herr

theorem ScheduleKeyDeletion_post (id : Nat) (e : Env) :
    SchedulePost id e (ScheduleKeyDeletion id e).val (ScheduleKeyDeletion id e).env
      (ScheduleKeyDeletion id e).trace := by
  rcases ScheduleKeyDeletion_cases id e with ⟨err, h⟩ | ⟨hf, h⟩
  · rw [h]
    refine ⟨rfl, rfl, rfl, ?_, ?_⟩
    · intro hm; simp at hm
    · intro _ _; rfl
  · rw [h]
    refine ⟨rfl, rfl, rfl, ?_, ?_⟩
    · intro _; rfl
    · intro err herr; simp at herr

/-- The stages of `CmdRotate.Run`, each with the guarantee of the helper or
store call it makes, and the result `R` at every exit. -/
theorem Run_stages (r : CmdRotate) (ktx : Context) (e : Env) (R : Ret (Option Err))
    (hR : (r.Run ktx).run e = R) :
    ∃ v1 e1 t1, GetOrCreatePost r.KeySpec (ktx.keyAlias keySuffixCurrent) e v1 e1 t1 ∧
    match v1 with
    | .error err => R = ⟨some (.wrap .gettingCurrentKey err), e1, t1⟩
    | .ok keyCurrent =>
    if (decide (timeSince e1.now keyCurrent.CreationDate < r.MinimumAge) && !r.Force) = true
    then R = ⟨some (.tooYoung keyCurrent.KeyId), e1, t1⟩
    else
    ∃ v3 e3 t3, DescribePost (ktx.keyAlias keySuffixPrevious) e1 v3 e3 t3 ∧
    match fatal? v3 with
    | some err => R = ⟨some (.wrap .gettingPreviousKey (.kms err)), e3, t1 ++ t3⟩
    | none =>
    ∃ v4 e4 t4, UpsertPost (ktx.keyAlias keySuffixPrevious) keyCurrent.KeyId e3 v4 e4 t4 ∧
    match v4 with
    | some err => R = ⟨some (.wrap .updatingAliasForPreviousKey err), e4, t1 ++ (t3 ++ t4)⟩
    | none =>
    ∃ v5 e5 t5, GetOrCreatePost r.KeySpec (ktx.keyAlias keySuffixNext) e4 v5 e5 t5 ∧
    match v5 with
    | .error err => R = ⟨some (.wrap .gettingNextKey err), e5, t1 ++ (t3 ++ (t4 ++ t5))⟩
    | .ok keyNext =>
    ∃ v6 e6 t6, UpsertPost (ktx.keyAlias keySuffixCurrent) keyNext.KeyId e5 v6 e6 t6 ∧
    match v6 with
    | some err =>
      R = ⟨some (.wrap .updatingAliasForCurrentKey err), e6, t1 ++ (t3 ++ (t4 ++ (t5 ++ t6)))⟩
    | none =>
    ∃ v7 e7 t7, DeletePost (ktx.keyAlias keySuffixNext) e6 v7 e7 t7 ∧
    match v7 with
    | .error err =>
      R = ⟨some (.wrap .deletingNextAlias (.kms err)), e7,
        t1 ++ (t3 ++ (t4 ++ (t5 ++ (t6 ++ t7))))⟩
    | .ok _ =>
    ∃ v8 e8 t8, GetOrCreatePost r.KeySpec (ktx.keyAlias keySuffixNext) e7 v8 e8 t8 ∧
    match v8 with
    | .error err =>
      R = ⟨some (.wrap .creatingNewKey err), e8,
        t1 ++ (t3 ++ (t4 ++ (t5 ++ (t6 ++ (t7 ++ t8)))))⟩
    | .ok _ =>
    match v3.toOption with
    | none => R = ⟨none, e8, t1 ++ (t3 ++ (t4 ++ (t5 ++ (t6 ++ (t7 ++ t8)))))⟩
    | some kp =>
    ∃ v9 e9 t9, SchedulePost kp.KeyId e8 v9 e9 t9 ∧
    match v9 with
    | .error err =>
      R = ⟨some (.wrap .schedulingDeletionOfPreviousKey (.kms err)), e9,
        t1 ++ (t3 ++ (t4 ++ (t5 ++ (t6 ++ (t7 ++ (t8 ++ t9))))))⟩
    | .ok _ =>
      R = ⟨none, e9, t1 ++ (t3 ++ (t4 ++ (t5 ++ (t6 ++ (t7 ++ (t8 ++ t9))))))⟩ := by
  have P1 := getOrCreate_post r ktx keySuffixCurrent e
  simp only [KMS.run, CmdRotate.Run, bind_eq] at hR P1
  generalize r.getOrCreateKMSKey ktx keySuffixCurrent e = o1 at hR P1
  obtain ⟨v1, e1, t1⟩ := o1
  refine ⟨v1, e1, t1, P1, ?_⟩
  clear P1
  cases v1 with
  | error err =>
    subst hR
    simp [Ret.prepend, pure_apply]
  | ok kc =>
  simp only [bind_eq, timeNow, prepend_nil] at hR ⊢
  by_cases hc : (decide (timeSince e1.now kc.CreationDate < r.MinimumAge) && !r.Force) = true
  · rw [if_pos hc] at hR ⊢
    subst hR
    simp [Ret.prepend, pure_apply]
  · rw [if_neg hc] at hR ⊢
    -- step 3: look up the previous key
    have P3 := DescribeKey_post (ktx.keyAlias keySuffixPrevious) e1
    simp only [bind_eq] at hR
    generalize DescribeKey (ktx.keyAlias keySuffixPrevious) e1 = o3 at hR P3
    obtain ⟨v3, e3, t3⟩ := o3
    refine ⟨v3, e3, t3, P3, ?_⟩
    clear P3
    dsimp only at hR ⊢
    generalize fatal? v3 = fv at hR ⊢
    cases fv with
    | some err =>
      subst hR
      simp [Ret.prepend, pure_apply]
    | none =>
    -- step 4: previous alias -> current key
    have P4 := updateOrCreate_post ktx keySuffixPrevious kc.KeyId e3
    simp only [bind_eq, KMS.run] at hR P4
    generalize updateOrCreateAlias ktx keySuffixPrevious kc.KeyId e3 = o4 at hR P4
    obtain ⟨v4, e4, t4⟩ := o4
    refine ⟨v4, e4, t4, P4, ?_⟩
    clear P4
    cases v4 with
    | some err =>
      subst hR
      simp [Ret.prepend, pure_apply]
    | none =>
    -- step 5: resolve or create the next key
    have P5 := getOrCreate_post r ktx keySuffixNext e4
    simp only [bind_eq, KMS.run] at hR P5
    generalize r.getOrCreateKMSKey ktx keySuffixNext e4 = o5 at hR P5
    obtain ⟨v5, e5, t5⟩ := o5
    refine ⟨v5, e5, t5, P5, ?_⟩
    clear P5
    cases v5 with
    | error err =>
      subst hR
      simp [Ret.prepend, pure_apply]
    | ok kn =>
    -- step 6: current alias -> next key
    have P6 := updateOrCreate_post ktx keySuffixCurrent kn.KeyId e5
    simp only [bind_eq, KMS.run] at hR P6
    generalize updateOrCreateAlias ktx keySuffixCurrent kn.KeyId e5 = o6 at hR P6
    obtain ⟨v6, e6, t6⟩ := o6
    refine ⟨v6, e6, t6, P6, ?_⟩
    clear P6
    cases v6 with
    | some err =>
      subst hR
      simp [Ret.prepend, pure_apply]
    | none =>
    -- step 7: delete the next alias, create the standby
    have P7 := DeleteAlias_post (ktx.keyAlias keySuffixNext) e6
    simp only [bind_eq] at hR
    generalize DeleteAlias (ktx.keyAlias keySuffixNext) e6 = o7 at hR P7
    obtain ⟨v7, e7, t7⟩ := o7
    refine ⟨v7, e7, t7, P7, ?_⟩
    clear P7
    cases v7 with
    | error err =>
      subst hR
      simp [Ret.prepend, pure_apply]
    | ok u7 =>
    have P8 := getOrCreate_post r ktx keySuffixNext e7
    simp only [bind_eq, KMS.run] at hR P8
    generalize r.getOrCreateKMSKey ktx keySuffixNext e7 = o8 at hR P8
    obtain ⟨v8, e8, t8⟩ := o8
    refine ⟨v8, e8, t8, P8, ?_⟩
    clear P8
    cases v8 with
    | error err =>
      subst hR
      simp [Ret.prepend, pure_apply]
    | ok k8 =>
    -- step 8: schedule the old previous key
    dsimp only at hR ⊢
    generalize v3.toOption = okp at hR ⊢
    cases okp with
    | none =>
      subst hR
      simp [Ret.prepend, pure_apply]
    | some kp =>
    have P9 := ScheduleKeyDeletion_post kp.KeyId e8
    simp only [bind_eq] at hR
    generalize ScheduleKeyDeletion kp.KeyId e8 = o9 at hR P9
    obtain ⟨v9, e9, t9⟩ := o9
    refine ⟨v9, e9, t9, P9, ?_⟩
    clear P9
    cases v9 with
    | error err =>
      subst hR
      simp [Ret.prepend, pure_apply]
    | ok u9 =>
      subst hR
      simp [Ret.prepend, pure_apply]

/-! ## Frame lemmas: what a stage leaves alone -/

theorem find_prefix {l l' : List KeyMetadata} {p : KeyMetadata → Bool} {m : KeyMetadata}
    (hk : l <+: l') (h : l.find? p = some m) : l'.find? p = some m := by
  obtain ⟨t, rfl⟩ := hk
  simp [List.find?_append, h]

theorem Store.resolve_frame {s s' : Store} {a : String} {m : KeyMetadata}
    (hk : s.keys <+: s'.keys) (ht : s'.target a = s.target a) (h : s.resolve a = some m) :
    s'.resolve a = some m := by
  unfold Store.resolve at h ⊢
  rw [ht]
  cases hta : s.target a with
  | none => simp [hta] at h
  | some id =>
    simp only [hta] at h ⊢
    exact find_prefix hk h

theorem Store.resolve_of_target {s s' : Store} {a b : String} {m : KeyMetadata}
    (hk : s.keys <+: s'.keys) (h : s.resolve a = some m) (ht : s'.target b = some m.KeyId) :
    s'.resolve b = some m := by
  unfold Store.resolve at h ⊢
  rw [ht]
  cases hta : s.target a with
  | none => simp [hta] at h
  | some id =>
    simp only [hta] at h ⊢
    have hid : m.KeyId = id := by
      have := List.find?_some h
      simpa using this
    rw [hid]
    exact find_prefix hk h

theorem GetOrCreatePost.keepsOthers {spec a b : String} {e e' : Env} {v : Except Err KeyMetadata}
    {t : List Event} {m : KeyMetadata} (P : GetOrCreatePost spec a e v e' t) (hb : b ≠ a)
    (h : e.store.resolve b = some m) : e'.store.resolve b = some m :=
  Store.resolve_frame P.keys (P.others b hb) h

theorem UpsertPost.leavesOthers {a b : String} {id : Nat} {e e' : Env} {v : Option Err}
    {t : List Event} {m : KeyMetadata} (P : UpsertPost a id e v e' t) (hb : b ≠ a)
    (h : e.store.resolve b = some m) : e'.store.resolve b = some m :=
  Store.resolve_frame (by rw [P.keys]) (P.others b hb) h

theorem DeletePost.sparesOthers {a b : String} {e e' : Env} {v : Except KmsError Unit}
    {t : List Event} {m : KeyMetadata} (P : DeletePost a e v e' t) (hb : b ≠ a)
    (h : e.store.resolve b = some m) : e'.store.resolve b = some m := by
  cases v with
  | error err =>
    rw [(P.err err rfl).1]
    exact h
  | ok u =>
    rw [P.ok rfl]
    refine Store.resolve_frame (s := e.store) (List.prefix_refl _) ?_ h
    rw [Store.target_deleteAlias]
    simp [hb]

theorem SchedulePost.keepsAliases {id : Nat} {b : String} {e e' : Env} {v : Except KmsError Unit}
    {t : List Event} {m : KeyMetadata} (P : SchedulePost id e v e' t)
    (h : e.store.resolve b = some m) : e'.store.resolve b = some m := by
  cases v with
  | error err =>
    rw [P.err err rfl]
    exact h
  | ok u =>
    rw [P.ok rfl]
    exact h

theorem Store.mem_of_resolve {s : Store} {a : String} {m : KeyMetadata}
    (h : s.resolve a = some m) : m ∈ s.keys := by
  unfold Store.resolve at h
  cases hta : s.target a with
  | none => simp [hta] at h
  | some id =>
    simp only [hta] at h
    exact List.mem_of_find?_eq_some h

theorem Store.resolve_deleteAlias_self (s : Store) (a : String) :
    (s.deleteAlias a).resolve a = none := by
  simp [Store.resolve, Store.target_deleteAlias]

theorem quiet_append {a b : List Event} (ha : ∀ ev ∈ a, ev.isSchedule = false)
    (hb : ∀ ev ∈ b, ev.isSchedule = false) : ∀ ev ∈ a ++ b, ev.isSchedule = false := by
  intro ev hev
  rcases List.mem_append.1 hev with h | h
  · exact ha ev h
  · exact hb ev h

theorem quiet_filter {t : List Event} (h : ∀ ev ∈ t, ev.isSchedule = false) :
    t.filter Event.isSchedule = [] := by
  rw [List.filter_eq_nil_iff]
  intro ev hev
  simp [h ev hev]

theorem quiet_no_schedule {t : List Event} (h : ∀ ev ∈ t, ev.isSchedule = false) (id : Nat)
    (pre : Store) (err : Option KmsError) : Event.kms (.ScheduleKeyDeletion id) pre err ∉ t := by
  intro hmem
  have := h _ hmem
  simp [Event.isSchedule] at this

theorem DescribePost.noSchedule {a : String} {e e' : Env} {v : Except KmsError KeyMetadata}
    {t : List Event} (P : DescribePost a e v e' t) : ∀ ev ∈ t, ev.isSchedule = false := by
  rw [P.trace]
  simp [Event.isSchedule]

theorem DeletePost.notSchedule {a : String} {e e' : Env} {v : Except KmsError Unit}
    {t : List Event} (P : DeletePost a e v e' t) : ∀ ev ∈ t, ev.isSchedule = false := by
  rw [P.trace]
  simp [Event.isSchedule]

theorem DeletePost.sameSchedule {a : String} {e e' : Env} {v : Except KmsError Unit}
    {t : List Event} (P : DeletePost a e v e' t) : e'.store.scheduled = e.store.scheduled := by
  cases v with
  | error err => rw [(P.err err rfl).1]
  | ok u => rw [P.ok rfl]; rfl

theorem succeeded_append_left {req : Request} {a : List Event} (b : List Event)
    (h : succeeded req a) : succeeded req (a ++ b) := by
  obtain ⟨pre, hpre⟩ := h
  exact ⟨pre, List.mem_append_left _ hpre⟩

theorem succeeded_append_right {req : Request} (a : List Event) {b : List Event}
    (h : succeeded req b) : succeeded req (a ++ b) := by
  obtain ⟨pre, hpre⟩ := h
  exact ⟨pre, List.mem_append_right _ hpre⟩

/-! ## Claims about rotation -/

/-- C6: if the current alias resolves to a key and `Run` fails at a step after
the previous-alias upsert (getting the next key, updating the current alias,
deleting the next alias, creating the standby or scheduling the deletion),
then the previous alias resolves to that key when `Run` returns. -/
theorem C6_outgoing_key_stays_reachable (r : CmdRotate) (ktx : Context) (e : Env)
    (m1 : KeyMetadata) (msg : Msg) (inner : Err)
    (hcur : e.store.resolve (ktx.keyAlias keySuffixCurrent) = some m1)
    (hval : ((r.Run ktx).run e).val = some (.wrap msg inner))
    (hlate : msg ∈ [Msg.gettingNextKey, Msg.updatingAliasForCurrentKey, Msg.deletingNextAlias,
      Msg.creatingNewKey, Msg.schedulingDeletionOfPreviousKey]) :
    ((r.Run ktx).run e).env.store.resolve (ktx.keyAlias keySuffixPrevious) = some m1 := by
  have hPC := (alias_cur_ne_prev ktx).symm
  have hPN := (alias_next_ne_prev ktx).symm
  obtain ⟨v1, e1, t1, P1, h⟩ := Run_stages r ktx e _ rfl
  generalize (r.Run ktx).run e = R at h hval ⊢
  have hs1 := (P1.found m1 hcur).1
  rcases (P1.found m1 hcur).2 with rfl | rfl
  · dsimp only at h
    split at h
    · subst h; simp at hval
    · obtain ⟨v3, e3, t3, P3, h⟩ := h
      have hs3 : e3.store = e.store := by rw [P3.env, ← hs1]
      split at h
      · subst h; simp at hval; simp [← hval.1] at hlate
      · obtain ⟨v4, e4, t4, P4, h⟩ := h
        cases v4 with
        | some err => dsimp only at h; subst h; simp at hval; simp [← hval.1] at hlate
        | none =>
        have h4 : e4.store.resolve (ktx.keyAlias keySuffixPrevious) = some m1 := by
          refine Store.resolve_of_target ?_ hcur (P4.ok rfl).1
          rw [P4.keys, hs3]
        obtain ⟨v5, e5, t5, P5, h⟩ := h
        have h5 := P5.keepsOthers hPN h4
        cases v5 with
        | error err => dsimp only at h; subst h; exact h5
        | ok kn =>
        obtain ⟨v6, e6, t6, P6, h⟩ := h
        have h6 := P6.leavesOthers hPC h5
        cases v6 with
        | some err => dsimp only at h; subst h; exact h6
        | none =>
        obtain ⟨v7, e7, t7, P7, h⟩ := h
        have h7 := P7.sparesOthers hPN h6
        cases v7 with
        | error err => dsimp only at h; subst h; exact h7
        | ok u7 =>
        obtain ⟨v8, e8, t8, P8, h⟩ := h
        have h8 := P8.keepsOthers hPN h7
        cases v8 with
        | error err => dsimp only at h; subst h; exact h8
        | ok k8 =>
        dsimp only at h
        split at h
        · subst h; simp at hval
        · obtain ⟨v9, e9, t9, P9, h⟩ := h
          have h9 := P9.keepsAliases h8
          cases v9 with
          | error err => dsimp only at h; subst h; exact h9
          | ok u9 => dsimp only at h; subst h; exact h9
  · dsimp only at h
    subst h; simp at hval; simp [← hval.1] at hlate

/-- C1: if the current alias resolves to key K1 and the next alias to key K2,
and `Run` completes without error, then afterwards the current alias
resolves to K2, the previous alias to K1, and the next alias to a key that
was not in the store before the run and whose id differs from those of K1
and K2. -/
theorem C1_rotation_advances (r : CmdRotate) (ktx : Context) (e : Env) (m1 m2 : KeyMetadata)
    (hcur : e.store.resolve (ktx.keyAlias keySuffixCurrent) = some m1)
    (hnext : e.store.resolve (ktx.keyAlias keySuffixNext) = some m2)
    (hok : ((r.Run ktx).run e).val = none) :
    ((r.Run ktx).run e).env.store.resolve (ktx.keyAlias keySuffixCurrent) = some m2 ∧
    ((r.Run ktx).run e).env.store.resolve (ktx.keyAlias keySuffixPrevious) = some m1 ∧
    ∃ m3, ((r.Run ktx).run e).env.store.resolve (ktx.keyAlias keySuffixNext) = some m3 ∧
      (∀ k ∈ e.store.keys, k.KeyId ≠ m3.KeyId) ∧
      succeeded (.CreateKey r.KeySpec) ((r.Run ktx).run e).trace ∧
      m3.KeyId ≠ m1.KeyId ∧ m3.KeyId ≠ m2.KeyId := by
  have hPC := (alias_cur_ne_prev ktx).symm
  have hCP := alias_cur_ne_prev ktx
  have hPN := (alias_next_ne_prev ktx).symm
  have hNP := alias_next_ne_prev ktx
  have hCN := alias_cur_ne_next ktx
  have hNC := (alias_cur_ne_next ktx).symm
  obtain ⟨v1, e1, t1, P1, h⟩ := Run_stages r ktx e _ rfl
  generalize (r.Run ktx).run e = R at h hok ⊢
  have hs1 := (P1.found m1 hcur).1
  rcases (P1.found m1 hcur).2 with rfl | rfl
  swap
  · dsimp only at h
    subst h; simp at hok
  dsimp only at h
  split at h
  · subst h; simp at hok
  obtain ⟨v3, e3, t3, P3, h⟩ := h
  have hs3 : e3.store = e.store := by rw [P3.env, ← hs1]
  split at h
  · subst h; simp at hok
  obtain ⟨v4, e4, t4, P4, h⟩ := h
  cases v4 with
  | some err => dsimp only at h; subst h; simp at hok
  | none =>
  have hk4 : e4.store.keys = e.store.keys := by rw [P4.keys, hs3]
  have hP4 : e4.store.resolve (ktx.keyAlias keySuffixPrevious) = some m1 :=
    Store.resolve_of_target (by rw [hk4]) hcur (P4.ok rfl).1
  have hN4 : e4.store.resolve (ktx.keyAlias keySuffixNext) = some m2 :=
    P4.leavesOthers hNP (by rw [hs3]; exact hnext)
  obtain ⟨v5, e5, t5, P5, h⟩ := h
  have hs5 := (P5.found m2 hN4).1
  rcases (P5.found m2 hN4).2 with rfl | rfl
  swap
  · dsimp only at h
    subst h; simp at hok
  obtain ⟨v6, e6, t6, P6, h⟩ := h
  cases v6 with
  | some err => dsimp only at h; subst h; simp at hok
  | none =>
  have hk6 : e6.store.keys = e.store.keys := by rw [P6.keys, hs5, hk4]
  have hC6 : e6.store.resolve (ktx.keyAlias keySuffixCurrent) = some m2 :=
    Store.resolve_of_target (by rw [hk6]) hnext (P6.ok rfl).1
  have hP6 : e6.store.resolve (ktx.keyAlias keySuffixPrevious) = some m1 :=
    P6.leavesOthers hPC (by rw [hs5]; exact hP4)
  obtain ⟨v7, e7, t7, P7, h⟩ := h
  cases v7 with
  | error err => dsimp only at h; subst h; simp at hok
  | ok u7 =>
  have hs7 : e7.store = e6.store.deleteAlias (ktx.keyAlias keySuffixNext) := P7.ok rfl
  have hk7 : e7.store.keys = e.store.keys := by rw [hs7, ← hk6]; rfl
  have hN7 : e7.store.resolve (ktx.keyAlias keySuffixNext) = none := by
    rw [hs7]; exact Store.resolve_deleteAlias_self _ _
  obtain ⟨v8, e8, t8, P8, h⟩ := h
  cases v8 with
  | error err => dsimp only at h; subst h; simp at hok
  | ok m3 =>
  have hC8 := P8.keepsOthers hCN (P7.sparesOthers hCN hC6)
  have hP8 := P8.keepsOthers hPN (P7.sparesOthers hPN hP6)
  obtain ⟨hN8, hnew⟩ := P8.ok m3 rfl
  rcases hnew with hold | ⟨-, hm3, -, hck, -⟩
  · rw [hN7] at hold; simp at hold
  have hid : m3.KeyId = e7.store.freshId := by rw [hm3]
  have hfresh : ∀ k ∈ e.store.keys, k.KeyId ≠ m3.KeyId := by
    intro k hk
    have := e7.store.le_freshId k (by rw [hk7]; exact hk)
    omega
  have hne1 := (hfresh m1 (Store.mem_of_resolve hcur)).symm
  have hne2 := (hfresh m2 (Store.mem_of_resolve hnext)).symm
  have hck' : ∀ t9, succeeded (.CreateKey r.KeySpec)
      (t1 ++ (t3 ++ (t4 ++ (t5 ++ (t6 ++ (t7 ++ (t8 ++ t9))))))) := by
    intro t9
    obtain ⟨pre, hpre⟩ := hck
    exact ⟨pre, by simp [hpre]⟩
  dsimp only at h
  split at h
  · subst h
    exact ⟨hC8, hP8, m3, hN8, hfresh, by simpa using hck' [], hne1, hne2⟩
  · obtain ⟨v9, e9, t9, P9, h⟩ := h
    cases v9 with
    | error err => dsimp only at h; subst h; simp at hok
    | ok u9 =>
      dsimp only at h
      subst h
      exact ⟨P9.keepsAliases hC8, P9.keepsAliases hP8, m3, P9.keepsAliases hN8, hfresh, hck' t9, hne1, hne2⟩

/-- C7: in every run of `Run`, `ScheduleKeyDeletion` is called at most once;
when it is called it is the last call of the run, it comes after a
successful `DescribeKey` of the previous alias whose result is the key it is
called on, after successful upserts of the previous and the current alias,
after the successful deletion of the next alias and, following that, the
successful creation of the standby key and its alias; and a run that fails
before the scheduling step makes no such call and leaves the deletion
schedule as it was. -/
theorem C7_deletion_is_last (r : CmdRotate) (ktx : Context) (e : Env) :
    (((r.Run ktx).run e).trace.filter Event.isSchedule).length ≤ 1 ∧
    (∀ id pre err, Event.kms (.ScheduleKeyDeletion id) pre err ∈ ((r.Run ktx).run e).trace →
      ∃ ta tb s0 s6 kp idc idn id3,
        ((r.Run ktx).run e).trace =
          ta ++ (Event.kms (.DeleteAlias (ktx.keyAlias keySuffixNext)) s6 none ::
            (tb ++ [Event.kms (.ScheduleKeyDeletion id) pre err])) ∧
        (∀ ev ∈ ta, ev.isSchedule = false) ∧ (∀ ev ∈ tb, ev.isSchedule = false) ∧
        Event.kms (.DescribeKey (ktx.keyAlias keySuffixPrevious)) s0 none ∈ ta ∧
        s0.resolve (ktx.keyAlias keySuffixPrevious) = some kp ∧ id = kp.KeyId ∧
        (succeeded (.UpdateAlias (ktx.keyAlias keySuffixPrevious) idc) ta ∨
          succeeded (.CreateAlias (ktx.keyAlias keySuffixPrevious) idc) ta) ∧
        (succeeded (.UpdateAlias (ktx.keyAlias keySuffixCurrent) idn) ta ∨
          succeeded (.CreateAlias (ktx.keyAlias keySuffixCurrent) idn) ta) ∧
        succeeded (.CreateKey r.KeySpec) tb ∧
        succeeded (.CreateAlias (ktx.keyAlias keySuffixNext) id3) tb) ∧
    (∀ err, ((r.Run ktx).run e).val = some err →
      (∀ inner, err ≠ .wrap .schedulingDeletionOfPreviousKey inner) →
      (∀ ev ∈ ((r.Run ktx).run e).trace, ev.isSchedule = false) ∧
        ((r.Run ktx).run e).env.store.scheduled = e.store.scheduled) := by
  -- a run whose trace has no scheduling call satisfies all three parts
  have early : ∀ (R : Ret (Option Err)), (∀ ev ∈ R.trace, ev.isSchedule = false) →
      R.env.store.scheduled = e.store.scheduled →
      (R.trace.filter Event.isSchedule).length ≤ 1 ∧
      (∀ id pre err, Event.kms (.ScheduleKeyDeletion id) pre err ∈ R.trace →
        ∃ ta tb s0 s6 kp idc idn id3,
          R.trace =
            ta ++ (Event.kms (.DeleteAlias (ktx.keyAlias keySuffixNext)) s6 none ::
              (tb ++ [Event.kms (.ScheduleKeyDeletion id) pre err])) ∧
          (∀ ev ∈ ta, ev.isSchedule = false) ∧ (∀ ev ∈ tb, ev.isSchedule = false) ∧
          Event.kms (.DescribeKey (ktx.keyAlias keySuffixPrevious)) s0 none ∈ ta ∧
          s0.resolve (ktx.keyAlias keySuffixPrevious) = some kp ∧ id = kp.KeyId ∧
          (succeeded (.UpdateAlias (ktx.keyAlias keySuffixPrevious) idc) ta ∨
            succeeded (.CreateAlias (ktx.keyAlias keySuffixPrevious) idc) ta) ∧
          (succeeded (.UpdateAlias (ktx.keyAlias keySuffixCurrent) idn) ta ∨
            succeeded (.CreateAlias (ktx.keyAlias keySuffixCurrent) idn) ta) ∧
          succeeded (.CreateKey r.KeySpec) tb ∧
          succeeded (.CreateAlias (ktx.keyAlias keySuffixNext) id3) tb) ∧
      (∀ err, R.val = some err →
        (∀ inner, err ≠ .wrap .schedulingDeletionOfPreviousKey inner) →
        (∀ ev ∈ R.trace, ev.isSchedule = false) ∧
          R.env.store.scheduled = e.store.scheduled) := by
    intro R hq hs
    refine ⟨by simp [quiet_filter hq], ?_, fun _ _ _ => ⟨hq, hs⟩⟩
    intro id pre err hmem
    exact absurd hmem (quiet_no_schedule hq id pre err)
  obtain ⟨v1, e1, t1, P1, h⟩ := Run_stages r ktx e _ rfl
  generalize (r.Run ktx).run e = R at h ⊢
  cases v1 with
  | error err => dsimp only at h; subst h; exact early _ P1.quiet P1.scheduled
  | ok kc =>
  dsimp only at h
  split at h
  · subst h; exact early _ P1.quiet P1.scheduled
  obtain ⟨v3, e3, t3, P3, h⟩ := h
  have hs3 : e3.store.scheduled = e.store.scheduled := by rw [P3.env]; exact P1.scheduled
  have q3 := quiet_append P1.quiet P3.noSchedule
  split at h
  · subst h; exact early _ q3 hs3
  obtain ⟨v4, e4, t4, P4, h⟩ := h
  have hs4 := P4.scheduled.trans hs3
  have q4 := quiet_append P1.quiet (quiet_append P3.noSchedule P4.quiet)
  cases v4 with
  | some err => dsimp only at h; subst h; exact early _ q4 hs4
  | none =>
  obtain ⟨v5, e5, t5, P5, h⟩ := h
  have hs5 := P5.scheduled.trans hs4
  have q5 := quiet_append P1.quiet (quiet_append P3.noSchedule (quiet_append P4.quiet P5.quiet))
  cases v5 with
  | error err => dsimp only at h; subst h; exact early _ q5 hs5
  | ok kn =>
  obtain ⟨v6, e6, t6, P6, h⟩ := h
  have hs6 := P6.scheduled.trans hs5
  have q6 := quiet_append P1.quiet (quiet_append P3.noSchedule (quiet_append P4.quiet
    (quiet_append P5.quiet P6.quiet)))
  cases v6 with
  | some err => dsimp only at h; subst h; exact early _ q6 hs6
  | none =>
  obtain ⟨v7, e7, t7, P7, h⟩ := h
  have hs7 := P7.sameSchedule.trans hs6
  have q7 := quiet_append P1.quiet (quiet_append P3.noSchedule (quiet_append P4.quiet
    (quiet_append P5.quiet (quiet_append P6.quiet P7.notSchedule))))
  cases v7 with
  | error err => dsimp only at h; subst h; exact early _ q7 hs7
  | ok u7 =>
  obtain ⟨v8, e8, t8, P8, h⟩ := h
  have hs8 := P8.scheduled.trans hs7
  have q8 := quiet_append P1.quiet (quiet_append P3.noSchedule (quiet_append P4.quiet
    (quiet_append P5.quiet (quiet_append P6.quiet (quiet_append P7.notSchedule P8.quiet)))))
  cases v8 with
  | error err => dsimp only at h; subst h; exact early _ q8 hs8
  | ok k8 =>
  dsimp only at h
  split at h
  · subst h
    refine ⟨by simp [quiet_filter q8], ?_, ?_⟩
    · intro id pre err hmem
      exact absurd hmem (quiet_no_schedule q8 id pre err)
    · intro err herr
      simp at herr
  rename_i kp hkp
  obtain ⟨v9, e9, t9, P9, h⟩ := h
  -- the run reached the scheduling step
  have hv3 : v3 = .ok kp := by
    cases v3 with
    | error x => simp [Except.toOption] at hkp
    | ok m => simp only [Except.toOption, Option.some.injEq] at hkp; rw [hkp]
  subst hv3
  have ht3 : t3 = [Event.kms (.DescribeKey (ktx.keyAlias keySuffixPrevious)) e1.store none] :=
    P3.trace
  have ht7 : t7 = [Event.kms (.DeleteAlias (ktx.keyAlias keySuffixNext)) e6.store none] :=
    P7.trace
  have ht9 : t9 = [Event.kms (.ScheduleKeyDeletion kp.KeyId) e8.store (errOf v9)] := P9.trace
  have hN7 : e7.store.resolve (ktx.keyAlias keySuffixNext) = none := by
    rw [P7.ok rfl]; exact Store.resolve_deleteAlias_self _ _
  have qa := quiet_append P1.quiet (quiet_append P3.noSchedule (quiet_append P4.quiet
    (quiet_append P5.quiet P6.quiet)))
  have htr : R.trace = (t1 ++ (t3 ++ (t4 ++ (t5 ++ t6)))) ++
      (Event.kms (.DeleteAlias (ktx.keyAlias keySuffixNext)) e6.store none ::
        (t8 ++ [Event.kms (.ScheduleKeyDeletion kp.KeyId) e8.store (errOf v9)])) := by
    cases v9 <;> (dsimp only at h; subst h; simp [ht7, ht9])
  have hval : ∀ err, R.val = some err →
      ∃ inner, err = .wrap .schedulingDeletionOfPreviousKey inner := by
    intro err herr
    cases v9 with
    | error x => dsimp only at h; subst h; simp at herr; exact ⟨_, herr.symm⟩
    | ok u => dsimp only at h; subst h; simp at herr
  clear h
  refine ⟨?_, ?_, ?_⟩
  · rw [htr, List.filter_append, quiet_filter qa, List.filter_cons, List.filter_append,
      quiet_filter P8.quiet]
    simp [Event.isSchedule]
  · intro id pre err hmem
    rw [htr] at hmem
    have hlast : Event.kms (.ScheduleKeyDeletion id) pre err =
        Event.kms (.ScheduleKeyDeletion kp.KeyId) e8.store (errOf v9) := by
      rcases List.mem_append.1 hmem with h1 | h1
      · exact absurd h1 (quiet_no_schedule qa id pre err)
      · rcases List.mem_cons.1 h1 with h2 | h2
        · simp at h2
        · rcases List.mem_append.1 h2 with h3 | h3
          · exact absurd h3 (quiet_no_schedule P8.quiet id pre err)
          · simpa using h3
    obtain ⟨hN8, hnew⟩ := P8.ok k8 rfl
    rcases hnew with hold | ⟨-, -, -, hck, hca⟩
    · rw [hN7] at hold; simp at hold
    refine ⟨t1 ++ (t3 ++ (t4 ++ (t5 ++ t6))), t8, e1.store, e6.store, kp, kc.KeyId,
      kn.KeyId, k8.KeyId, ?_, qa, P8.quiet, ?_, P3.ok kp rfl, ?_, ?_, ?_, hck, hca⟩
    · rw [htr, hlast]
    · rw [ht3]; simp
    · simp only [Event.kms.injEq, Request.ScheduleKeyDeletion.injEq] at hlast
      exact hlast.1
    · rcases (P4.ok rfl).2 with h4 | h4
      · exact .inl (succeeded_append_right _ (succeeded_append_right _
          (succeeded_append_left _ h4)))
      · exact .inr (succeeded_append_right _ (succeeded_append_right _
          (succeeded_append_left _ h4)))
    · rcases (P6.ok rfl).2 with h6 | h6
      · exact .inl (succeeded_append_right _ (succeeded_append_right _
          (succeeded_append_right _ (succeeded_append_right _ h6))))
      · exact .inr (succeeded_append_right _ (succeeded_append_right _
          (succeeded_append_right _ (succeeded_append_right _ h6))))
  · intro err herr hne
    obtain ⟨inner, hinner⟩ := hval err herr
    exact absurd hinner (hne inner)

theorem lookup_mem {l : List (String × Nat)} {a : String} {id : Nat}
    (h : l.lookup a = some id) : (a, id) ∈ l := by
  induction l with
  | nil => simp at h
  | cons p l ih =>
    obtain ⟨c, j⟩ := p
    rw [lookup_cons_ite] at h
    by_cases hac : a = c
    · subst hac
      simp only [if_true, Option.some.injEq] at h
      subst h
      exact List.mem_cons_self _ _
    · simp only [hac, if_false] at h
      exact List.mem_cons_of_mem _ (ih h)

theorem Store.resolve_of_wellFormed {s : Store} {a : String} {id : Nat}
    (hwf : s.wellFormed = true) (ht : s.target a = some id) : ∃ m, s.resolve a = some m := by
  have hmem := lookup_mem ht
  simp only [Store.wellFormed, List.all_eq_true] at hwf
  have hany := hwf _ hmem
  simp only [List.any_eq_true] at hany
  obtain ⟨k, hk, hkid⟩ := hany
  cases hfind : s.keys.find? (fun k => k.KeyId == id) with
  | some m => exact ⟨m, by simp [Store.resolve, ht, hfind]⟩
  | none =>
    rw [List.find?_eq_none] at hfind
    exact absurd hkid (hfind k hk)

theorem Store.target_of_resolve {s : Store} {a : String} {m : KeyMetadata}
    (h : s.resolve a = some m) : s.target a = some m.KeyId := by
  unfold Store.resolve at h
  cases hta : s.target a with
  | none => simp [hta] at h
  | some id =>
    simp only [hta] at h
    have := List.find?_some h
    simp only [beq_iff_eq] at this
    rw [this]

theorem Store.resolve_none_of_target {s : Store} {a : String} (h : s.target a = none) :
    s.resolve a = none := by
  simp [Store.resolve, h]

theorem not_mem_of_suffix {l l' : List Bool} (h : l' <:+ l) (hn : true ∉ l) : true ∉ l' :=
  fun hm => hn (h.subset hm)

/-- C5: when the previous alias is absent, no store call is failed by the
provider, every alias of the store points at a key the store holds, and the
run is not rejected by the age gate, `Run` returns no error, the previous
alias ends up resolving to the key step 1 returned (the key the current alias
resolved to, or the one step 1 created when there was none), and the run makes
no `ScheduleKeyDeletion` call and schedules nothing. -/
theorem C5_first_rotation (r : CmdRotate) (ktx : Context) (e : Env)
    (hprev : e.store.resolve (ktx.keyAlias keySuffixPrevious) = none)
    (hrel : true ∉ e.faults) (hwf : e.store.wellFormed = true)
    (hage : isTooYoung ((r.Run ktx).run e).val = false) :
    ((r.Run ktx).run e).val = none ∧
    (∃ kc, ((r.Run ktx).run e).env.store.resolve (ktx.keyAlias keySuffixPrevious) = some kc ∧
      (e.store.resolve (ktx.keyAlias keySuffixCurrent) = some kc ∨
        (e.store.target (ktx.keyAlias keySuffixCurrent) = none ∧
          kc = ⟨e.store.freshId, e.now⟩))) ∧
    (∀ ev ∈ ((r.Run ktx).run e).trace, ev.isSchedule = false) ∧
    ((r.Run ktx).run e).env.store.scheduled = e.store.scheduled := by
  have hPC := (alias_cur_ne_prev ktx).symm
  have hPN := (alias_next_ne_prev ktx).symm
  have hNP := alias_next_ne_prev ktx
  have hNC := (alias_cur_ne_next ktx).symm
  have dangling : ∀ a, ¬ (e.store.resolve a = none ∧ e.store.target a ≠ none) := by
    rintro a ⟨h1, h2⟩
    cases hta : e.store.target a with
    | none => exact h2 hta
    | some id =>
      obtain ⟨m, hm⟩ := Store.resolve_of_wellFormed hwf hta
      rw [h1] at hm
      simp at hm
  have htP : e.store.target (ktx.keyAlias keySuffixPrevious) = none := by
    cases hta : e.store.target (ktx.keyAlias keySuffixPrevious) with
    | none => rfl
    | some id => exact absurd ⟨hprev, by simp [hta]⟩ (dangling _)
  obtain ⟨v1, e1, t1, P1, h⟩ := Run_stages r ktx e _ rfl
  generalize (r.Run ktx).run e = R at h hage ⊢
  have hf1 := not_mem_of_suffix P1.faults hrel
  cases v1 with
  | error x =>
    rcases P1.err x rfl with hx | hx
    · exact absurd hx hrel
    · exact absurd hx (dangling _)
  | ok kc =>
  obtain ⟨hC1, hkc⟩ := P1.ok kc rfl
  have hkc' : e.store.resolve (ktx.keyAlias keySuffixCurrent) = some kc ∨
      (e.store.target (ktx.keyAlias keySuffixCurrent) = none ∧
        kc = ⟨e.store.freshId, e.now⟩) := by
    rcases hkc with hk | ⟨hk1, hk2, -⟩
    · exact .inl hk
    · exact .inr ⟨hk1, hk2⟩
  dsimp only at h
  split at h
  · subst h; simp [isTooYoung] at hage
  obtain ⟨v3, e3, t3, P3, h⟩ := h
  have hs3 : e3.store = e1.store := by rw [P3.env]
  have hf3 : true ∉ e3.faults := by
    rw [P3.env]; exact not_mem_of_suffix (List.tail_suffix _) hf1
  have htP1 : e1.store.target (ktx.keyAlias keySuffixPrevious) = none := by
    rw [P1.others _ hPC]; exact htP
  have hv3 : v3.toOption = none := by
    rw [P3.reliable hf1]; exact Store.resolve_none_of_target htP1
  split at h
  · rename_i err hfat
    exact absurd (P3.fatal err hfat) hf1
  obtain ⟨v4, e4, t4, P4, h⟩ := h
  have hf4 := not_mem_of_suffix P4.faults hf3
  cases v4 with
  | some x => exact absurd (P4.err x rfl).2 hf3
  | none =>
  have hP4 : e4.store.resolve (ktx.keyAlias keySuffixPrevious) = some kc :=
    Store.resolve_of_target (by rw [P4.keys, hs3]) hC1 (P4.ok rfl).1
  have htN4 : e4.store.target (ktx.keyAlias keySuffixNext) =
      e.store.target (ktx.keyAlias keySuffixNext) := by
    rw [P4.others _ hNP, hs3, P1.others _ hNC]
  obtain ⟨v5, e5, t5, P5, h⟩ := h
  have hf5 := not_mem_of_suffix P5.faults hf4
  cases v5 with
  | error x =>
    rcases P5.err x rfl with hx | ⟨hx1, hx2⟩
    · exact absurd hx hf4
    · exfalso
      rw [htN4] at hx2
      cases hta : e.store.target (ktx.keyAlias keySuffixNext) with
      | none => exact hx2 hta
      | some id =>
        obtain ⟨m, hm⟩ := Store.resolve_of_wellFormed hwf hta
        have h1 := P1.keepsOthers hNC hm
        rw [← hs3] at h1
        have h4 := P4.leavesOthers hNP h1
        rw [hx1] at h4
        simp at h4
  | ok kn =>
  obtain ⟨hN5, -⟩ := P5.ok kn rfl
  obtain ⟨v6, e6, t6, P6, h⟩ := h
  have hf6 := not_mem_of_suffix P6.faults hf5
  cases v6 with
  | some x => exact absurd (P6.err x rfl).2 hf5
  | none =>
  have htN6 : e6.store.target (ktx.keyAlias keySuffixNext) = some kn.KeyId := by
    rw [P6.others _ hNC]; exact Store.target_of_resolve hN5
  obtain ⟨v7, e7, t7, P7, h⟩ := h
  have hf7 : true ∉ e7.faults := by
    rw [P7.faults]; exact not_mem_of_suffix (List.tail_suffix _) hf6
  cases v7 with
  | error x =>
    rcases (P7.err x rfl).2 with hx | hx
    · exact absurd hx hf6
    · rw [htN6] at hx; simp at hx
  | ok u7 =>
  have htN7 : e7.store.target (ktx.keyAlias keySuffixNext) = none := by
    rw [P7.ok rfl, Store.target_deleteAlias]; simp
  obtain ⟨v8, e8, t8, P8, h⟩ := h
  cases v8 with
  | error x =>
    rcases P8.err x rfl with hx | ⟨-, hx⟩
    · exact absurd hx hf7
    · exact absurd htN7 hx
  | ok k8 =>
  dsimp only at h
  rw [hv3] at h
  dsimp only at h
  subst h
  refine ⟨rfl, ⟨kc, ?_, hkc'⟩, ?_, ?_⟩
  · exact P8.keepsOthers hPN (P7.sparesOthers hPN (P6.leavesOthers hPC (P5.keepsOthers hPN hP4)))
  · exact quiet_append P1.quiet (quiet_append P3.noSchedule (quiet_append P4.quiet
      (quiet_append P5.quiet (quiet_append P6.quiet (quiet_append P7.notSchedule P8.quiet)))))
  · show e8.store.scheduled = e.store.scheduled
    rw [P8.scheduled, P7.sameSchedule, P6.scheduled, P5.scheduled, P4.scheduled, hs3,
      P1.scheduled]

theorem Run_tooYoung_force (r : CmdRotate) (ktx : Context) (e : Env)
    (h : isTooYoung ((r.Run ktx).run e).val = true) : r.Force = false := by
  obtain ⟨v1, e1, t1, P1, hs⟩ := Run_stages r ktx e _ rfl
  generalize (r.Run ktx).run e = R at hs h
  cases v1 with
  | error x => dsimp only at hs; subst hs; simp [isTooYoung] at h
  | ok kc =>
  dsimp only at hs
  split at hs
  · rename_i hc
    simp only [Bool.and_eq_true, Bool.not_eq_true'] at hc
    exact hc.2
  obtain ⟨v3, e3, t3, P3, hs⟩ := hs
  split at hs
  · subst hs; simp [isTooYoung] at h
  obtain ⟨v4, e4, t4, P4, hs⟩ := hs
  cases v4 with
  | some x => dsimp only at hs; subst hs; simp [isTooYoung] at h
  | none =>
  obtain ⟨v5, e5, t5, P5, hs⟩ := hs
  cases v5 with
  | error x => dsimp only at hs; subst hs; simp [isTooYoung] at h
  | ok kn =>
  obtain ⟨v6, e6, t6, P6, hs⟩ := hs
  cases v6 with
  | some x => dsimp only at hs; subst hs; simp [isTooYoung] at h
  | none =>
  obtain ⟨v7, e7, t7, P7, hs⟩ := hs
  cases v7 with
  | error x => dsimp only at hs; subst hs; simp [isTooYoung] at h
  | ok u7 =>
  obtain ⟨v8, e8, t8, P8, hs⟩ := hs
  cases v8 with
  | error x => dsimp only at hs; subst hs; simp [isTooYoung] at h
  | ok k8 =>
  dsimp only at hs
  split at hs
  · subst hs; simp [isTooYoung] at h
  obtain ⟨v9, e9, t9, P9, hs⟩ := hs
  cases v9 with
  | error x => dsimp only at hs; subst hs; simp [isTooYoung] at h
  | ok u9 => dsimp only at hs; subst hs; simp [isTooYoung] at h

/-- C4 (amended): when the current alias already resolves to a key, the
provider does not fail the lookup, `Force` is false and the key is younger
than `MinimumAge`, `Run` returns the too-young error and the store is
exactly what it was; the same call with `Force` set is not rejected by the
age gate. -/
theorem C4_age_gate (r : CmdRotate) (ktx : Context) (e : Env) (m : KeyMetadata)
    (hcall : e.faulty = false)
    (hcur : e.store.resolve (ktx.keyAlias keySuffixCurrent) = some m)
    (hforce : r.Force = false)
    (hyoung : timeSince e.now m.CreationDate < r.MinimumAge) :
    ((r.Run ktx).run e).val = some (.tooYoung m.KeyId) ∧
    ((r.Run ktx).run e).env.store = e.store ∧
    isTooYoung (({ r with Force := true }.Run ktx).run e).val = false := by
  refine ⟨?_, ?_, ?_⟩
  · obtain ⟨v1, e1, t1, P1, h⟩ := Run_stages r ktx e _ rfl
    have hv := P1.direct m hcall hcur
    subst hv
    dsimp only at h
    rw [if_pos (by rw [P1.now]; simp [hyoung, hforce])] at h
    rw [h]
  · obtain ⟨v1, e1, t1, P1, h⟩ := Run_stages r ktx e _ rfl
    have hv := P1.direct m hcall hcur
    subst hv
    dsimp only at h
    rw [if_pos (by rw [P1.now]; simp [hyoung, hforce])] at h
    rw [h]
    exact (P1.found m hcur).1
  · cases hy : isTooYoung (({ r with Force := true }.Run ktx).run e).val with
    | false => rfl
    | true =>
      have := Run_tooYoung_force _ ktx e hy
      simp at this

theorem Store.freshId_congr {s s' : Store} (h : s'.keys = s.keys) : s'.freshId = s.freshId := by
  simp [Store.freshId, h]

/-- A completed run from a store whose current and next aliases resolve:
where the three aliases end, with the standby named exactly. -/
theorem Run_advances (r : CmdRotate) (ktx : Context) (e : Env) (m1 m2 : KeyMetadata)
    (hcur : e.store.resolve (ktx.keyAlias keySuffixCurrent) = some m1)
    (hnext : e.store.resolve (ktx.keyAlias keySuffixNext) = some m2)
    (hok : ((r.Run ktx).run e).val = none) :
    ((r.Run ktx).run e).env.store.resolve (ktx.keyAlias keySuffixCurrent) = some m2 ∧
    ((r.Run ktx).run e).env.store.resolve (ktx.keyAlias keySuffixPrevious) = some m1 ∧
    ((r.Run ktx).run e).env.store.resolve (ktx.keyAlias keySuffixNext) =
      some ⟨e.store.freshId, e.now⟩ := by
  have hPC := (alias_cur_ne_prev ktx).symm
  have hPN := (alias_next_ne_prev ktx).symm
  have hNP := alias_next_ne_prev ktx
  have hCN := alias_cur_ne_next ktx
  obtain ⟨v1, e1, t1, P1, h⟩ := Run_stages r ktx e _ rfl
  generalize (r.Run ktx).run e = R at h hok ⊢
  have hs1 := (P1.found m1 hcur).1
  rcases (P1.found m1 hcur).2 with rfl | rfl
  swap
  · dsimp only at h
    subst h; simp at hok
  dsimp only at h
  split at h
  · subst h; simp at hok
  obtain ⟨v3, e3, t3, P3, h⟩ := h
  have hs3 : e3.store = e.store := by rw [P3.env, ← hs1]
  have hn3 : e3.now = e.now := by rw [P3.env]; exact P1.now
  split at h
  · subst h; simp at hok
  obtain ⟨v4, e4, t4, P4, h⟩ := h
  cases v4 with
  | some err => dsimp only at h; subst h; simp at hok
  | none =>
  have hk4 : e4.store.keys = e.store.keys := by rw [P4.keys, hs3]
  have hP4 : e4.store.resolve (ktx.keyAlias keySuffixPrevious) = some m1 :=
    Store.resolve_of_target (by rw [hk4]) hcur (P4.ok rfl).1
  have hN4 : e4.store.resolve (ktx.keyAlias keySuffixNext) = some m2 :=
    P4.leavesOthers hNP (by rw [hs3]; exact hnext)
  obtain ⟨v5, e5, t5, P5, h⟩ := h
  have hs5 := (P5.found m2 hN4).1
  rcases (P5.found m2 hN4).2 with rfl | rfl
  swap
  · dsimp only at h
    subst h; simp at hok
  obtain ⟨v6, e6, t6, P6, h⟩ := h
  cases v6 with
  | some err => dsimp only at h; subst h; simp at hok
  | none =>
  have hk6 : e6.store.keys = e.store.keys := by rw [P6.keys, hs5, hk4]
  have hC6 : e6.store.resolve (ktx.keyAlias keySuffixCurrent) = some m2 :=
    Store.resolve_of_target (by rw [hk6]) hnext (P6.ok rfl).1
  have hP6 : e6.store.resolve (ktx.keyAlias keySuffixPrevious) = some m1 :=
    P6.leavesOthers hPC (by rw [hs5]; exact hP4)
  obtain ⟨v7, e7, t7, P7, h⟩ := h
  cases v7 with
  | error err => dsimp only at h; subst h; simp at hok
  | ok u7 =>
  have hs7 : e7.store = e6.store.deleteAlias (ktx.keyAlias keySuffixNext) := P7.ok rfl
  have hk7 : e7.store.keys = e.store.keys := by rw [hs7, ← hk6]; rfl
  have hn7 : e7.now = e.now := by rw [P7.now, P6.now, P5.now, P4.now, hn3]
  have hN7 : e7.store.resolve (ktx.keyAlias keySuffixNext) = none := by
    rw [hs7]; exact Store.resolve_deleteAlias_self _ _
  obtain ⟨v8, e8, t8, P8, h⟩ := h
  cases v8 with
  | error err => dsimp only at h; subst h; simp at hok
  | ok m3 =>
  have hC8 := P8.keepsOthers hCN (P7.sparesOthers hCN hC6)
  have hP8 := P8.keepsOthers hPN (P7.sparesOthers hPN hP6)
  obtain ⟨hN8, hnew⟩ := P8.ok m3 rfl
  rcases hnew with hold | ⟨-, hm3, -⟩
  · rw [hN7] at hold; simp at hold
  rw [Store.freshId_congr hk7, hn7] at hm3
  subst hm3
  dsimp only at h
  split at h
  · subst h
    exact ⟨hC8, hP8, hN8⟩
  · obtain ⟨v9, e9, t9, P9, h⟩ := h
    cases v9 with
    | error err => dsimp only at h; subst h; simp at hok
    | ok u9 =>
      dsimp only at h
      subst h
      exact ⟨P9.keepsAliases hC8, P9.keepsAliases hP8, P9.keepsAliases hN8⟩

/-- What a run that fails in steps 1 to 6 leaves behind, when the current
alias resolved: a failure in steps 1, 3 or 4 leaves the whole store as it
was; and if the next alias resolved too, no key was added and both aliases
still resolve to the same keys. -/
theorem Run_failed_before_step_7 (r : CmdRotate) (ktx : Context) (e : Env)
    (m1 : KeyMetadata) (msg : Msg) (inner : Err)
    (hcur : e.store.resolve (ktx.keyAlias keySuffixCurrent) = some m1)
    (hfail : ((r.Run ktx).run e).val = some (.wrap msg inner))
    (hsteps : msg ∈ [Msg.gettingCurrentKey, Msg.gettingPreviousKey,
      Msg.updatingAliasForPreviousKey, Msg.gettingNextKey, Msg.updatingAliasForCurrentKey]) :
    (msg ∈ [Msg.gettingCurrentKey, Msg.gettingPreviousKey, Msg.updatingAliasForPreviousKey] →
      ((r.Run ktx).run e).env.store = e.store) ∧
    (∀ m2, e.store.resolve (ktx.keyAlias keySuffixNext) = some m2 →
      ((r.Run ktx).run e).env.store.keys = e.store.keys ∧
      ((r.Run ktx).run e).env.store.resolve (ktx.keyAlias keySuffixCurrent) = some m1 ∧
      ((r.Run ktx).run e).env.store.resolve (ktx.keyAlias keySuffixNext) = some m2) := by
  have hCP := alias_cur_ne_prev ktx
  have hNP := alias_next_ne_prev ktx
  have same : ∀ s' : Store, s' = e.store →
      (msg ∈ [Msg.gettingCurrentKey, Msg.gettingPreviousKey,
          Msg.updatingAliasForPreviousKey] → s' = e.store) ∧
      (∀ m2, e.store.resolve (ktx.keyAlias keySuffixNext) = some m2 →
        s'.keys = e.store.keys ∧
        s'.resolve (ktx.keyAlias keySuffixCurrent) = some m1 ∧
        s'.resolve (ktx.keyAlias keySuffixNext) = some m2) := by
    rintro s' rfl
    exact ⟨fun _ => rfl, fun _ h => ⟨rfl, hcur, h⟩⟩
  obtain ⟨v1, e1, t1, P1, h⟩ := Run_stages r ktx e _ rfl
  generalize (r.Run ktx).run e = R at h hfail ⊢
  have hs1 := (P1.found m1 hcur).1
  cases v1 with
  | error x => dsimp only at h; subst h; exact same _ hs1
  | ok kc =>
  dsimp only at h
  split at h
  · subst h; simp at hfail
  obtain ⟨v3, e3, t3, P3, h⟩ := h
  have hs3 : e3.store = e.store := by rw [P3.env, ← hs1]
  split at h
  · subst h; exact same _ hs3
  obtain ⟨v4, e4, t4, P4, h⟩ := h
  cases v4 with
  | some x => dsimp only at h; subst h; exact same _ ((P4.err x rfl).1.trans hs3)
  | none =>
  -- the previous alias has been repointed; nothing else has changed
  have hk4 : e4.store.keys = e.store.keys := by rw [P4.keys, hs3]
  have hC4 : e4.store.resolve (ktx.keyAlias keySuffixCurrent) = some m1 :=
    P4.leavesOthers hCP (by rw [hs3]; exact hcur)
  have hN4 : ∀ m2, e.store.resolve (ktx.keyAlias keySuffixNext) = some m2 →
      e4.store.resolve (ktx.keyAlias keySuffixNext) = some m2 :=
    fun m2 hm2 => P4.leavesOthers hNP (by rw [hs3]; exact hm2)
  have after4 : ∀ s' : Store, (∀ m2, e.store.resolve (ktx.keyAlias keySuffixNext) = some m2 →
        s' = e4.store) →
      ∀ m2, e.store.resolve (ktx.keyAlias keySuffixNext) = some m2 →
        s'.keys = e.store.keys ∧
        s'.resolve (ktx.keyAlias keySuffixCurrent) = some m1 ∧
        s'.resolve (ktx.keyAlias keySuffixNext) = some m2 := by
    intro s' hs' m2 hm2
    rw [hs' m2 hm2]
    exact ⟨hk4, hC4, hN4 m2 hm2⟩
  obtain ⟨v5, e5, t5, P5, h⟩ := h
  have hs5 : ∀ m2, e.store.resolve (ktx.keyAlias keySuffixNext) = some m2 →
      e5.store = e4.store := fun m2 hm2 => (P5.found m2 (hN4 m2 hm2)).1
  cases v5 with
  | error x =>
    dsimp only at h
    subst h
    simp only [Option.some.injEq, Err.wrap.injEq] at hfail
    refine ⟨?_, after4 _ hs5⟩
    rw [← hfail.1]
    simp
  | ok kn =>
  obtain ⟨v6, e6, t6, P6, h⟩ := h
  cases v6 with
  | some x =>
    dsimp only at h
    subst h
    simp only [Option.some.injEq, Err.wrap.injEq] at hfail
    refine ⟨?_, after4 _ (fun m2 hm2 => (P6.err x rfl).1.trans (hs5 m2 hm2))⟩
    rw [← hfail.1]
    simp
  | none =>
  obtain ⟨v7, e7, t7, P7, h⟩ := h
  cases v7 with
  | error x => dsimp only at h; subst h; simp at hfail; simp [← hfail.1] at hsteps
  | ok u7 =>
  obtain ⟨v8, e8, t8, P8, h⟩ := h
  cases v8 with
  | error x => dsimp only at h; subst h; simp at hfail; simp [← hfail.1] at hsteps
  | ok k8 =>
  dsimp only at h
  split at h
  · subst h; simp at hfail
  obtain ⟨v9, e9, t9, P9, h⟩ := h
  cases v9 with
  | error x => dsimp only at h; subst h; simp at hfail; simp [← hfail.1] at hsteps
  | ok u9 => dsimp only at h; subst h; simp at hfail

/-- C3 (amended): when the current alias resolves to K1 and `Run` fails at a
store call of steps 1 to 6, then (a) if the failure is at step 1, 3 or 4 the
store is exactly what it was, so a re-run with `Force` set and no failing
call ends in the very store of a single uninterrupted run, deletion schedule
included; and (b) if the next alias resolved to K2, a re-run that completes
and an uninterrupted run that completes both end with K2 behind current, K1
behind previous and the same fresh key, whose id no key of the initial store
has, behind next. -/
theorem C3_recovery_before_step_7 (r : CmdRotate) (ktx : Context) (e : Env)
    (m1 : KeyMetadata) (msg : Msg) (inner : Err) (now' : Int)
    (hcur : e.store.resolve (ktx.keyAlias keySuffixCurrent) = some m1)
    (hfail : ((r.Run ktx).run e).val = some (.wrap msg inner))
    (hsteps : msg ∈ [Msg.gettingCurrentKey, Msg.gettingPreviousKey,
      Msg.updatingAliasForPreviousKey, Msg.gettingNextKey, Msg.updatingAliasForCurrentKey]) :
    (msg ∈ [Msg.gettingCurrentKey, Msg.gettingPreviousKey, Msg.updatingAliasForPreviousKey] →
      ((r.Run ktx).run e).env.store = e.store ∧
      (({ r with Force := true }.Run ktx).run
          ⟨((r.Run ktx).run e).env.store, [], now'⟩).env.store =
        (({ r with Force := true }.Run ktx).run ⟨e.store, [], now'⟩).env.store) ∧
    (∀ m2, e.store.resolve (ktx.keyAlias keySuffixNext) = some m2 →
      ((({ r with Force := true }.Run ktx).run
            ⟨((r.Run ktx).run e).env.store, [], now'⟩).val = none →
        (({ r with Force := true }.Run ktx).run
            ⟨((r.Run ktx).run e).env.store, [], now'⟩).env.store.resolve
          (ktx.keyAlias keySuffixCurrent) = some m2 ∧
        (({ r with Force := true }.Run ktx).run
            ⟨((r.Run ktx).run e).env.store, [], now'⟩).env.store.resolve
          (ktx.keyAlias keySuffixPrevious) = some m1 ∧
        (({ r with Force := true }.Run ktx).run
            ⟨((r.Run ktx).run e).env.store, [], now'⟩).env.store.resolve
          (ktx.keyAlias keySuffixNext) = some ⟨e.store.freshId, now'⟩) ∧
      ((({ r with Force := true }.Run ktx).run ⟨e.store, [], now'⟩).val = none →
        (({ r with Force := true }.Run ktx).run ⟨e.store, [], now'⟩).env.store.resolve
          (ktx.keyAlias keySuffixCurrent) = some m2 ∧
        (({ r with Force := true }.Run ktx).run ⟨e.store, [], now'⟩).env.store.resolve
          (ktx.keyAlias keySuffixPrevious) = some m1 ∧
        (({ r with Force := true }.Run ktx).run ⟨e.store, [], now'⟩).env.store.resolve
          (ktx.keyAlias keySuffixNext) = some ⟨e.store.freshId, now'⟩) ∧
      ∀ k ∈ e.store.keys, k.KeyId ≠ e.store.freshId) := by
  obtain ⟨hearly, hlater⟩ := Run_failed_before_step_7 r ktx e m1 msg inner hcur hfail hsteps
  refine ⟨?_, ?_⟩
  · intro he
    have hs := hearly he
    exact ⟨hs, by rw [hs]⟩
  · intro m2 hnext
    obtain ⟨hkeys, hC, hN⟩ := hlater m2 hnext
    refine ⟨?_, ?_, ?_⟩
    · intro hre
      obtain ⟨a1, a2, a3⟩ := Run_advances { r with Force := true } ktx
        ⟨((r.Run ktx).run e).env.store, [], now'⟩ m1 m2 hC hN hre
      simp only [Store.freshId_congr hkeys] at a3
      exact ⟨a1, a2, a3⟩
    · intro hun
      exact Run_advances { r with Force := true } ktx ⟨e.store, [], now'⟩ m1 m2 hcur hnext hun
    · intro k hk hid
      have := e.store.le_freshId k hk
      omega

/-! ## export.go: the loop -/

theorem GetPublicKey_cases (material : Nat → List Nat) (a : String) (e : Env) :
    (∃ err, GetPublicKey material a e = ⟨.error err, ⟨e.store, e.faults.tail, e.now⟩,
        [.kms (.GetPublicKey a) e.store (some err)]⟩) ∨
    (∃ m, e.store.resolve a = some m ∧
      GetPublicKey material a e = ⟨.ok (material m.KeyId), ⟨e.store, e.faults.tail, e.now⟩,
        [.kms (.GetPublicKey a) e.store none]⟩) := by
  unfold GetPublicKey
  rcases call_cases (.GetPublicKey a) (fun e : Env =>
      match e.store.resolve a with
      | some m => Except.ok (material m.KeyId, e.store)
      | none => Except.error KmsError.NotFoundException) e with
    ⟨hf, h⟩ | ⟨hf, err, hfe, h⟩ | ⟨hf, b, s, hfe, h⟩
  · exact .inl ⟨_, h⟩
  · exact .inl ⟨_, h⟩
  · cases hr : e.store.resolve a with
    | none => simp [hr] at hfe
    | some m =>
      simp only [hr, Except.ok.injEq, Prod.mk.injEq] at hfe
      obtain ⟨rfl, rfl⟩ := hfe
      exact .inr ⟨m, rfl, h⟩

theorem libStep_apply {α : Type} (step : LibCall) (a : String) (res : Except String α)
    (e : Env) : libStep step a res e = ⟨res, e, [.lib step a res.toBool]⟩ := rfl

/-- One iteration of the export loop: it returns early with an error, or it
resolved the alias, built the key with the three metadata fields and goes on
with the key appended, having made no failing call. -/
theorem loop_cons_cases (x : CmdExport) (lib : Lib) (material : Nat → List Nat)
    (ktx : Context) (sfx : String) (rest : List String) (s : List Jwk) (e : Env) :
    (∃ err e' t, (x.loop lib material ktx (sfx :: rest) s).run e = ⟨.error err, e', t⟩ ∧
      e'.store = e.store) ∨
    (∃ m pk t, e.store.resolve (ktx.keyAlias sfx) = some m ∧
      lib.ParsePKIXPublicKey (material m.KeyId) = .ok pk ∧
      (∀ ev ∈ t, ev.failed = false) ∧
      (x.loop lib material ktx (sfx :: rest) s).run e =
        Ret.prepend t ((x.loop lib material ktx rest
          (s ++ [⟨pk, some m.KeyId, some ForSignature, some x.Algorithm⟩])).run
          ⟨e.store, e.faults.tail.tail, e.now⟩)) := by
  simp only [KMS.run]
  rw [CmdExport.loop]
  simp only [bind_eq]
  rcases DescribeKey_cases (ktx.keyAlias sfx) e with ⟨hf, h⟩ | ⟨hf, hr, h⟩ | ⟨hf, m, hr, h⟩
  · simp only [h, pure_apply]
    exact .inl ⟨_, _, _, rfl, rfl⟩
  · simp only [h, pure_apply]
    exact .inl ⟨_, _, _, rfl, rfl⟩
  simp only [h, bind_eq]
  rcases GetPublicKey_cases material (ktx.keyAlias sfx) ⟨e.store, e.faults.tail, e.now⟩ with
    ⟨err, h2⟩ | ⟨m', hr', h2⟩
  · simp only [h2, pure_apply]
    exact .inl ⟨_, _, _, rfl, rfl⟩
  simp only [hr, Option.some.injEq] at hr'
  subst hr'
  simp only [h2, bind_eq, libStep_apply]
  cases hparse : lib.ParsePKIXPublicKey (material m.KeyId) with
  | error msg =>
    simp only [pure_apply]
    exact .inl ⟨_, _, _, rfl, rfl⟩
  | ok pk =>
  simp only [bind_eq, libStep_apply, PublicKeyOf]
  cases hconv : lib.publicKeyOfErr pk with
  | some msg =>
    simp only [pure_apply]
    exact .inl ⟨_, _, _, rfl, rfl⟩
  | none =>
  simp only [bind_eq, libStep_apply, Jwk.SetKeyID]
  cases hkid : lib.setErr .SetKeyID ⟨pk, none, none, none⟩ with
  | some msg =>
    simp only [pure_apply]
    exact .inl ⟨_, _, _, rfl, rfl⟩
  | none =>
  simp only [bind_eq, libStep_apply, Jwk.SetKeyUsage]
  cases huse : lib.setErr .SetKeyUsage ⟨pk, some m.KeyId, none, none⟩ with
  | some msg =>
    simp only [pure_apply]
    exact .inl ⟨_, _, _, rfl, rfl⟩
  | none =>
  simp only [bind_eq, libStep_apply, Jwk.SetAlgorithm]
  cases halg : lib.setErr .SetAlgorithm ⟨pk, some m.KeyId, some ForSignature, none⟩ with
  | some msg =>
    simp only [pure_apply]
    exact .inl ⟨_, _, _, rfl, rfl⟩
  | none =>
  simp only [bind_eq, libStep_apply, AddKey, KeyAlgorithmFrom]
  cases hadd : lib.addKeyErr s ⟨pk, some m.KeyId, some ForSignature, some x.Algorithm⟩ with
  | some msg =>
    simp only [pure_apply]
    exact .inl ⟨_, _, _, rfl, rfl⟩
  | none =>
  refine .inr ⟨m, pk,
    [.kms (.DescribeKey (ktx.keyAlias sfx)) e.store none,
     .kms (.GetPublicKey (ktx.keyAlias sfx)) e.store none,
     .lib .ParsePKIXPublicKey (ktx.keyAlias sfx) true, .lib .PublicKeyOf (ktx.keyAlias sfx) true,
     .lib .SetKeyID (ktx.keyAlias sfx) true, .lib .SetKeyUsage (ktx.keyAlias sfx) true,
     .lib .SetAlgorithm (ktx.keyAlias sfx) true, .lib .AddKey (ktx.keyAlias sfx) true],
    hr, hparse, ?_, ?_⟩
  · simp [Event.failed]
  · simp [Ret.prepend, Except.toBool]

theorem loop_spec (x : CmdExport) (lib : Lib) (material : Nat → List Nat) (ktx : Context) :
    ∀ (l : List String) (s : List Jwk) (e : Env),
      ((x.loop lib material ktx l s).run e).env.store = e.store ∧
      ∀ s', ((x.loop lib material ktx l s).run e).val = .ok s' →
        (∀ ev ∈ ((x.loop lib material ktx l s).run e).trace, ev.failed = false) ∧
        ∃ keys, s' = s ++ keys ∧ List.Forall₂ (Exports x lib material ktx e.store) l keys := by
  intro l
  induction l with
  | nil =>
    intro s e
    refine ⟨rfl, ?_⟩
    intro s' hs'
    simp only [KMS.run, CmdExport.loop, pure_apply, Except.ok.injEq] at hs'
    subst hs'
    refine ⟨?_, [], by simp, List.Forall₂.nil⟩
    simp [KMS.run, CmdExport.loop, pure_apply]
  | cons sfx rest ih =>
    intro s e
    rcases loop_cons_cases x lib material ktx sfx rest s e with
      ⟨err, e', t, h, he'⟩ | ⟨m, pk, t, hr, hparse, hquiet, h⟩
    · rw [h]
      refine ⟨he', ?_⟩
      intro s' hs'
      simp at hs'
    · rw [h]
      obtain ⟨ih1, ih2⟩ := ih (s ++ [⟨pk, some m.KeyId, some ForSignature, some x.Algorithm⟩])
        ⟨e.store, e.faults.tail.tail, e.now⟩
      refine ⟨ih1, ?_⟩
      intro s' hs'
      obtain ⟨hq, keys, hkeys, hall⟩ := ih2 s' hs'
      refine ⟨?_, ⟨pk, some m.KeyId, some ForSignature, some x.Algorithm⟩ :: keys, ?_, ?_⟩
      · intro ev hev
        rcases List.mem_append.1 hev with h1 | h1
        · exact hquiet ev h1
        · exact hq ev h1
      · rw [hkeys]
        simp
      · exact List.Forall₂.cons ⟨m, hr, hparse, rfl, rfl, rfl⟩ hall

/-- The two ways `CmdExport.Run` ends: with an error and nothing written, or
with no error, no failing call, and the three entries written in the order
current, next, previous. -/
theorem export_cases (x : CmdExport) (lib : Lib) (material : Nat → List Nat) (ktx : Context)
    (e : Env) :
    (∃ err, ((x.Run lib material ktx).run e).val = ⟨some err, none⟩) ∨
    (∃ jc jn jp, ((x.Run lib material ktx).run e).val = ⟨none, some [jc, jn, jp]⟩ ∧
      (∀ ev ∈ ((x.Run lib material ktx).run e).trace, ev.failed = false) ∧
      Exports x lib material ktx e.store keySuffixCurrent jc ∧
      Exports x lib material ktx e.store keySuffixNext jn ∧
      Exports x lib material ktx e.store keySuffixPrevious jp) := by
  obtain ⟨-, hloop⟩ := loop_spec x lib material ktx
    [keySuffixCurrent, keySuffixNext, keySuffixPrevious] [] e
  simp only [KMS.run, CmdExport.Run, bind_eq] at hloop ⊢
  generalize x.loop lib material ktx [keySuffixCurrent, keySuffixNext, keySuffixPrevious] [] e
    = o at hloop ⊢
  obtain ⟨v, e', t⟩ := o
  cases v with
  | error err => exact .inl ⟨err, rfl⟩
  | ok s' =>
    obtain ⟨hq, keys, hkeys, hall⟩ := hloop s' rfl
    simp only [List.nil_append] at hkeys
    subst hkeys
    cases henc : lib.encodeErr s' with
    | some msg =>
      left
      simp only [henc]
      exact ⟨_, rfl⟩
    | none =>
      right
      simp only [henc]
      cases hall with
      | cons h1 hall =>
      cases hall with
      | cons h2 hall =>
      cases hall with
      | cons h3 hall =>
      cases hall
      refine ⟨_, _, _, rfl, ?_, h1, h2, h3⟩
      simpa [Ret.prepend, pure_apply] using hq

/-! ## Claims about export -/

/-- C8: whenever `CmdExport.Run` returns no error, the document it wrote has
exactly three entries, in the order current, next, previous; each entry has
the key id `DescribeKey` gives for that generation's alias, usage "sig" and
the declared algorithm, whatever library, key material and key type. -/
theorem C8_export_complete (x : CmdExport) (lib : Lib) (material : Nat → List Nat)
    (ktx : Context) (e : Env) (hok : ((x.Run lib material ktx).run e).val.err = none) :
    ∃ jc jn jp kc kn kp,
      ((x.Run lib material ktx).run e).val.stdout = some [jc, jn, jp] ∧
      e.store.resolve (ktx.keyAlias keySuffixCurrent) = some kc ∧
      e.store.resolve (ktx.keyAlias keySuffixNext) = some kn ∧
      e.store.resolve (ktx.keyAlias keySuffixPrevious) = some kp ∧
      jc.kid = some kc.KeyId ∧ jn.kid = some kn.KeyId ∧ jp.kid = some kp.KeyId ∧
      jc.use = some "sig" ∧ jn.use = some "sig" ∧ jp.use = some "sig" ∧
      jc.alg = some x.Algorithm ∧ jn.alg = some x.Algorithm ∧ jp.alg = some x.Algorithm := by
  rcases export_cases x lib material ktx e with ⟨err, h⟩ | ⟨jc, jn, jp, h, -, hc, hn, hp⟩
  · rw [h] at hok
    simp at hok
  · obtain ⟨kc, hkc, -, c1, c2, c3⟩ := hc
    obtain ⟨kn, hkn, -, n1, n2, n3⟩ := hn
    obtain ⟨kp, hkp, -, p1, p2, p3⟩ := hp
    exact ⟨jc, jn, jp, kc, kn, kp, by rw [h], hkc, hkn, hkp, c1, n1, p1, c2, n2, p2, c3, n3,
      p3⟩

/-- C9: if any store call or library step of the export loop fails, or any
of the three aliases does not resolve (in particular when the previous alias
is absent), `CmdExport.Run` returns an error and writes no document; and it
never writes a document when it returns an error. -/
theorem C9_export_fail_closed (x : CmdExport) (lib : Lib) (material : Nat → List Nat)
    (ktx : Context) (e : Env) :
    ((∃ ev ∈ ((x.Run lib material ktx).run e).trace, ev.failed = true) →
      ((x.Run lib material ktx).run e).val.err ≠ none ∧
        ((x.Run lib material ktx).run e).val.stdout = none) ∧
    ((∃ sfx ∈ [keySuffixCurrent, keySuffixNext, keySuffixPrevious],
        e.store.resolve (ktx.keyAlias sfx) = none) →
      ((x.Run lib material ktx).run e).val.err ≠ none ∧
        ((x.Run lib material ktx).run e).val.stdout = none) ∧
    (((x.Run lib material ktx).run e).val.err ≠ none →
      ((x.Run lib material ktx).run e).val.stdout = none) := by
  rcases export_cases x lib material ktx e with ⟨err, h⟩ | ⟨jc, jn, jp, h, hq, hc, hn, hp⟩
  · rw [h]
    simp
  · refine ⟨?_, ?_, ?_⟩
    · rintro ⟨ev, hev, hfail⟩
      rw [hq ev hev] at hfail
      simp at hfail
    · rintro ⟨sfx, hsfx, hnone⟩
      obtain ⟨kc, hkc, -⟩ := hc
      obtain ⟨kn, hkn, -⟩ := hn
      obtain ⟨kp, hkp, -⟩ := hp
      simp only [List.mem_cons, List.mem_singleton, List.not_mem_nil, or_false] at hsfx
      rcases hsfx with rfl | rfl | rfl
      · rw [hkc] at hnone; simp at hnone
      · rw [hkn] at hnone; simp at hnone
      · rw [hkp] at hnone; simp at hnone
    · rw [h]
      simp

/-! ## The claims at concrete inputs -/


/-- C1 at the steady store: keys 2 and 3 are behind current and next; after a
forced rotation key 3 is current, key 2 previous. -/
theorem C1_witness :
    steadyStore.resolve (svc.keyAlias keySuffixCurrent) = some ⟨2, 20⟩ ∧
    steadyStore.resolve (svc.keyAlias keySuffixNext) = some ⟨3, 30⟩ ∧
    uninterrupted.val = none ∧
    uninterrupted.env.store.resolve (svc.keyAlias keySuffixCurrent) = some ⟨3, 30⟩ ∧
    uninterrupted.env.store.resolve (svc.keyAlias keySuffixPrevious) = some ⟨2, 20⟩ :=
  ⟨by decide, by decide, by decide,
    (C1_rotation_advances forced svc ⟨steadyStore, [], 100⟩ ⟨2, 20⟩ ⟨3, 30⟩
      (by decide) (by decide) (by decide)).1,
    (C1_rotation_advances forced svc ⟨steadyStore, [], 100⟩ ⟨2, 20⟩ ⟨3, 30⟩
      (by decide) (by decide) (by decide)).2.1⟩

/-- C2 fails on the code: a first rotation that stops after the previous-alias
upsert leaves current and previous on key 1; the retry then calls
`ScheduleKeyDeletion` on key 1 while the previous alias resolves to key 1,
and ends with key 1 both behind the previous alias and pending deletion. -/
theorem C2_retry_schedules_referenced_key :
    interruptedFirstRun.val = some (.wrap .gettingNextKey (.kms .ServiceFailure)) ∧
    interruptedFirstRun.env.store =
      ⟨[⟨1, 100⟩], [("alias/svc-current", 1), ("alias/svc-previous", 1)], []⟩ ∧
    retryAfterInterruption.val = none ∧
    retryAfterInterruption.trace.getLast? =
      some (.kms (.ScheduleKeyDeletion 1)
        ⟨[⟨1, 100⟩, ⟨2, 200⟩, ⟨3, 200⟩],
          [("alias/svc-current", 2), ("alias/svc-previous", 1), ("alias/svc-next", 3)], []⟩
        none) ∧
    (Store.mk [⟨1, 100⟩, ⟨2, 200⟩, ⟨3, 200⟩]
      [("alias/svc-current", 2), ("alias/svc-previous", 1), ("alias/svc-next", 3)]
      []).resolve (svc.keyAlias keySuffixPrevious) = some ⟨1, 100⟩ ∧
    retryAfterInterruption.env.store.resolve (svc.keyAlias keySuffixPrevious) =
      some ⟨1, 100⟩ ∧
    retryAfterInterruption.env.store.scheduled = [1] := by
  decide

/-- C3 fails on the code.  After a failure of the last call of step 7 the
re-run rotates once more, so it ends with other keys behind current and
previous and another key scheduled than a single uninterrupted run.  The
same happens to the key behind current when the standby had to be created in
step 5 and its `CreateAlias` failed (next alias absent before the run), and
when the first key had to be created in step 1 and its `CreateAlias` failed
(current alias absent before the run): the key made by the failed run stays
behind unaliased and the re-run makes another. -/
theorem C3_counterexample_late_failure :
    (lateFailure.val = some (.wrap .creatingNewKey (.kms .ServiceFailure)) ∧
      recovered.val = none ∧ uninterrupted.val = none ∧
      recovered.env.store.resolve (svc.keyAlias keySuffixCurrent) = some ⟨4, 100⟩ ∧
      uninterrupted.env.store.resolve (svc.keyAlias keySuffixCurrent) = some ⟨3, 30⟩ ∧
      recovered.env.store.resolve (svc.keyAlias keySuffixPrevious) = some ⟨3, 30⟩ ∧
      uninterrupted.env.store.resolve (svc.keyAlias keySuffixPrevious) = some ⟨2, 20⟩ ∧
      recovered.env.store.scheduled = [2] ∧
      uninterrupted.env.store.scheduled = [1]) ∧
    (noNextStore.resolve (svc.keyAlias keySuffixNext) = none ∧
      nextAliasFailure.val =
        some (.wrap .gettingNextKey (.wrap (.creatingAliasFor 3) (.kms .ServiceFailure))) ∧
      recoveredNoNext.val = none ∧ uninterruptedNoNext.val = none ∧
      recoveredNoNext.env.store.resolve (svc.keyAlias keySuffixCurrent) = some ⟨4, 100⟩ ∧
      uninterruptedNoNext.env.store.resolve (svc.keyAlias keySuffixCurrent) =
        some ⟨3, 100⟩) ∧
    (emptyStore.resolve (svc.keyAlias keySuffixCurrent) = none ∧
      currentAliasFailure.val =
        some (.wrap .gettingCurrentKey (.wrap (.creatingAliasFor 1) (.kms .ServiceFailure))) ∧
      recoveredEmpty.val = none ∧ uninterruptedEmpty.val = none ∧
      recoveredEmpty.env.store.resolve (svc.keyAlias keySuffixCurrent) = some ⟨3, 100⟩ ∧
      uninterruptedEmpty.env.store.resolve (svc.keyAlias keySuffixCurrent) = some ⟨2, 100⟩ ∧
      recoveredEmpty.env.store.resolve (svc.keyAlias keySuffixPrevious) = some ⟨2, 100⟩ ∧
      uninterruptedEmpty.env.store.resolve (svc.keyAlias keySuffixPrevious) =
        some ⟨1, 100⟩) := by
  decide

/-- C3 (amended) at the steady store with the fourth call, the `DescribeKey`
of the next alias in step 5, failing: the re-run and the uninterrupted run,
both at time 200, end with key 3 behind current, key 2 behind previous and
the new key 4 behind next. -/
theorem C3_witness :
    steadyStore.resolve (svc.keyAlias keySuffixCurrent) = some ⟨2, 20⟩ ∧
    steadyStore.resolve (svc.keyAlias keySuffixNext) = some ⟨3, 30⟩ ∧
    ((forced.Run svc).run ⟨steadyStore, [false, false, false, true], 100⟩).val =
      some (.wrap .gettingNextKey (.kms .ServiceFailure)) ∧
    (({ forced with Force := true }.Run svc).run
        ⟨((forced.Run svc).run ⟨steadyStore, [false, false, false, true], 100⟩).env.store,
          [], 200⟩).env.store.resolve (svc.keyAlias keySuffixCurrent) = some ⟨3, 30⟩ ∧
    (({ forced with Force := true }.Run svc).run ⟨steadyStore, [], 200⟩).env.store.resolve
      (svc.keyAlias keySuffixCurrent) = some ⟨3, 30⟩ ∧
    (({ forced with Force := true }.Run svc).run
        ⟨((forced.Run svc).run ⟨steadyStore, [false, false, false, true], 100⟩).env.store,
          [], 200⟩).env.store.resolve (svc.keyAlias keySuffixPrevious) = some ⟨2, 20⟩ ∧
    (({ forced with Force := true }.Run svc).run ⟨steadyStore, [], 200⟩).env.store.resolve
      (svc.keyAlias keySuffixPrevious) = some ⟨2, 20⟩ ∧
    (({ forced with Force := true }.Run svc).run
        ⟨((forced.Run svc).run ⟨steadyStore, [false, false, false, true], 100⟩).env.store,
          [], 200⟩).env.store.resolve (svc.keyAlias keySuffixNext) =
      some ⟨steadyStore.freshId, 200⟩ ∧
    (({ forced with Force := true }.Run svc).run ⟨steadyStore, [], 200⟩).env.store.resolve
      (svc.keyAlias keySuffixNext) = some ⟨steadyStore.freshId, 200⟩ ∧
    steadyStore.freshId = 4 :=
  have h := (C3_recovery_before_step_7 forced svc
    ⟨steadyStore, [false, false, false, true], 100⟩ ⟨2, 20⟩ .gettingNextKey
    (.kms .ServiceFailure) 200 (by decide) (by decide) (by decide)).2 ⟨3, 30⟩ (by decide)
  have hre := h.1 (by decide)
  have hun := h.2.1 (by decide)
  ⟨by decide, by decide, by decide, hre.1, hun.1, hre.2.1, hun.2.1, hre.2.2, hun.2.2,
    by decide⟩

/-- C4 fails on the code: on the empty store with the default configuration
step 1 creates key 1 and the current alias, the new key is younger than 24h,
`Run` returns the too-young error, and the store is no longer the empty
store. -/
theorem C4_counterexample_absent_current :
    defaults.Force = false ∧
    ((defaults.getOrCreateKMSKey svc keySuffixCurrent).run ⟨emptyStore, [], 1000⟩).val.toOption =
      some ⟨1, 1000⟩ ∧
    timeSince 1000 1000 < defaults.MinimumAge ∧
    ((defaults.Run svc).run ⟨emptyStore, [], 1000⟩).val = some (.tooYoung 1) ∧
    ((defaults.Run svc).run ⟨emptyStore, [], 1000⟩).env.store =
      ⟨[⟨1, 1000⟩], [("alias/svc-current", 1)], []⟩ ∧
    ((defaults.Run svc).run ⟨emptyStore, [], 1000⟩).env.store ≠ emptyStore := by
  decide

/-- C4 (amended) at the steady store with the default configuration: key 2 is
80ns old. -/
theorem C4_witness :
    (Env.mk steadyStore [] 100).faulty = false ∧
    steadyStore.resolve (svc.keyAlias keySuffixCurrent) = some ⟨2, 20⟩ ∧
    defaults.Force = false ∧ timeSince 100 20 < defaults.MinimumAge ∧
    ((defaults.Run svc).run ⟨steadyStore, [], 100⟩).val = some (.tooYoung 2) ∧
    ((defaults.Run svc).run ⟨steadyStore, [], 100⟩).env.store = steadyStore ∧
    isTooYoung (({ defaults with Force := true }.Run svc).run ⟨steadyStore, [], 100⟩).val =
      false :=
  ⟨by decide, by decide, rfl, by decide,
    C4_age_gate defaults svc ⟨steadyStore, [], 100⟩ ⟨2, 20⟩ (by decide) (by decide) rfl
      (by decide)⟩

/-- C5 at the scenario of the specification: empty store, prefix "svc",
`MinimumAge = 0`, `Force = true`; the run ends with current on key 2,
previous on key 1, next on key 3 and nothing scheduled. -/
theorem C5_witness :
    emptyStore.resolve (svc.keyAlias keySuffixPrevious) = none ∧
    emptyStore.wellFormed = true ∧
    ((forced.Run svc).run ⟨emptyStore, [], 100⟩).env.store =
      ⟨[⟨1, 100⟩, ⟨2, 100⟩, ⟨3, 100⟩],
        [("alias/svc-current", 2), ("alias/svc-previous", 1), ("alias/svc-next", 3)], []⟩ ∧
    ((forced.Run svc).run ⟨emptyStore, [], 100⟩).val = none ∧
    ((forced.Run svc).run ⟨emptyStore, [], 100⟩).env.store.scheduled =
      emptyStore.scheduled :=
  ⟨by decide, by decide, by decide,
    (C5_first_rotation forced svc ⟨emptyStore, [], 100⟩ (by decide) (by decide) (by decide)
      (by decide)).1,
    (C5_first_rotation forced svc ⟨emptyStore, [], 100⟩ (by decide) (by decide) (by decide)
      (by decide)).2.2.2⟩

/-- C6 at the steady store with the fourth call, the `DescribeKey` of the next
alias, failing: the previous alias resolves to key 2, the outgoing current
key. -/
theorem C6_witness :
    steadyStore.resolve (svc.keyAlias keySuffixCurrent) = some ⟨2, 20⟩ ∧
    ((forced.Run svc).run ⟨steadyStore, [false, false, false, true], 100⟩).val =
      some (.wrap .gettingNextKey (.kms .ServiceFailure)) ∧
    ((forced.Run svc).run ⟨steadyStore, [false, false, false, true], 100⟩).env.store.resolve
      (svc.keyAlias keySuffixPrevious) = some ⟨2, 20⟩ :=
  ⟨by decide, by decide,
    C6_outgoing_key_stays_reachable forced svc ⟨steadyStore, [false, false, false, true], 100⟩
      ⟨2, 20⟩ .gettingNextKey (.kms .ServiceFailure) (by decide) (by decide) (by decide)⟩

/-! ## Alias resolution -/

/-- C10: `keyAlias` is "alias/" followed by the prefix and the suffix, and
over the three generation suffixes two aliases are equal exactly when both
the prefixes and the suffixes are. -/
theorem C10_keyAlias_collision_free (c1 c2 : Context) (g1 g2 : String)
    (h1 : g1 ∈ [keySuffixCurrent, keySuffixNext, keySuffixPrevious])
    (h2 : g2 ∈ [keySuffixCurrent, keySuffixNext, keySuffixPrevious]) :
    c1.keyAlias g1 = "alias/" ++ c1.KeyAliasPrefix ++ g1 ∧
    (c1.keyAlias g1 = c2.keyAlias g2 ↔ c1.KeyAliasPrefix = c2.KeyAliasPrefix ∧ g1 = g2) := by
  refine ⟨rfl, ?_, ?_⟩
  · intro h
    refine keyAlias_inj c1 c2 g1 g2 ?_ ?_ h
    · simpa using h1
    · simpa using h2
  · rintro ⟨hp, rfl⟩
    simp [Context.keyAlias, hp]

/-- C10 at the prefixes "a-next" and "a": the alias of ("a-next", current) is
not the alias of ("a", next). -/
theorem C10_witness :
    keySuffixCurrent ∈ [keySuffixCurrent, keySuffixNext, keySuffixPrevious] ∧
    keySuffixNext ∈ [keySuffixCurrent, keySuffixNext, keySuffixPrevious] ∧
    (Context.mk "a-next").keyAlias keySuffixCurrent =
      "alias/" ++ "a-next" ++ keySuffixCurrent ∧
    ((Context.mk "a-next").keyAlias keySuffixCurrent = (Context.mk "a").keyAlias keySuffixNext ↔
      "a-next" = "a" ∧ keySuffixCurrent = keySuffixNext) :=
  ⟨by decide, by decide,
    C10_keyAlias_collision_free ⟨"a-next"⟩ ⟨"a"⟩ keySuffixCurrent keySuffixNext (by decide)
      (by decide)⟩

/-- C8 at the steady store with algorithm "RS256": the document lists keys 2,
3 and 1. -/
theorem C8_witness :
    (((CmdExport.mk "RS256").Run okLib (fun id => [id]) svc).run
      ⟨steadyStore, [], 100⟩).val.err = none ∧
    (((CmdExport.mk "RS256").Run okLib (fun id => [id]) svc).run
      ⟨steadyStore, [], 100⟩).val.stdout =
      some [⟨⟨.RSA, [2]⟩, some 2, some "sig", some "RS256"⟩,
        ⟨⟨.RSA, [3]⟩, some 3, some "sig", some "RS256"⟩,
        ⟨⟨.RSA, [1]⟩, some 1, some "sig", some "RS256"⟩] ∧
    ∃ jc jn jp kc kn kp,
      (((CmdExport.mk "RS256").Run okLib (fun id => [id]) svc).run
        ⟨steadyStore, [], 100⟩).val.stdout = some [jc, jn, jp] ∧
      steadyStore.resolve (svc.keyAlias keySuffixCurrent) = some kc ∧
      steadyStore.resolve (svc.keyAlias keySuffixNext) = some kn ∧
      steadyStore.resolve (svc.keyAlias keySuffixPrevious) = some kp ∧
      jc.kid = some kc.KeyId ∧ jn.kid = some kn.KeyId ∧ jp.kid = some kp.KeyId ∧
      jc.use = some "sig" ∧ jn.use = some "sig" ∧ jp.use = some "sig" ∧
      jc.alg = some "RS256" ∧ jn.alg = some "RS256" ∧ jp.alg = some "RS256" :=
  ⟨by decide, by decide,
    C8_export_complete ⟨"RS256"⟩ okLib (fun id => [id]) svc ⟨steadyStore, [], 100⟩ (by decide)⟩

/-- C7 at a forced rotation of the steady store: the only scheduling call is
the one on key 1, the old previous key, made on the fully rotated store. -/
theorem C7_witness :
    (uninterrupted.trace.filter Event.isSchedule).length ≤ 1 ∧
    uninterrupted.trace.filter Event.isSchedule =
      [.kms (.ScheduleKeyDeletion 1)
        ⟨[⟨1, 10⟩, ⟨2, 20⟩, ⟨3, 30⟩, ⟨4, 100⟩],
          [("alias/svc-current", 3), ("alias/svc-previous", 2), ("alias/svc-next", 4)], []⟩
        none] :=
  ⟨(C7_deletion_is_last forced svc ⟨steadyStore, [], 100⟩).1, by decide⟩

/-- C9 at a store without the previous alias: the export stops at the lookup
of the previous alias and writes nothing. -/
theorem C9_witness :
    noPreviousStore.resolve (svc.keyAlias keySuffixPrevious) = none ∧
    (((CmdExport.mk "RS256").Run okLib (fun id => [id]) svc).run
      ⟨noPreviousStore, [], 100⟩).val.err =
      some (.describingKey "alias/svc-previous" .NotFoundException) ∧
    ((((CmdExport.mk "RS256").Run okLib (fun id => [id]) svc).run
        ⟨noPreviousStore, [], 100⟩).val.err ≠ none ∧
      (((CmdExport.mk "RS256").Run okLib (fun id => [id]) svc).run
        ⟨noPreviousStore, [], 100⟩).val.stdout = none) :=
  ⟨by decide, by decide,
    (C9_export_fail_closed ⟨"RS256"⟩ okLib (fun id => [id]) svc ⟨noPreviousStore, [], 100⟩).2.1
      ⟨keySuffixPrevious, by decide, by decide⟩⟩

end KmsJwks
